import Mathlib

/-!
Verification of the scroll-driven frame mapper (`ScrollVideo`) and the
cancellable frame preloader (`usePreload`) of the wide-landing repository.

The segment mapper is embedded over exact arithmetic: scroll progress values
are rationals, frame counters are integers.  The preloader is embedded as a
small-step state machine over completion events: each image fetch settles at
most once, handlers run atomically on the single UI thread, and the
generation counter guards every mutation of the published state.
-/

namespace WideLanding

/-! ## Scroll segment mapper: data model (from `ScrollVideo.tsx`) -/

inductive SegKind where
  | fast
  | slow
deriving DecidableEq, Repr

/-- The `Segment` record built by the construction loop in `ScrollVideo`. -/
structure Segment where
  kind : SegKind
  startProgress : ℚ
  endProgress : ℚ
  startFrame : ℤ
  endFrame : ℤ
  serviceIndex : Option ℕ
deriving DecidableEq, Repr

/-- The construction loop body of `ScrollVideo`: iterates `n` more times,
with loop counter `i`, accumulated scroll progress `currProgress` and
accumulated frame counter `currFrame`.  Odd indices produce slow segments
carrying `serviceIndex = i / 2`. -/
def segLoop (fastSegmentSize slowSegmentSize : ℚ)
    (framesPerFastSegment framesPerSlowSegment : ℤ) :
    ℕ → ℕ → ℚ → ℤ → List Segment
  | 0, _, _, _ => []
  | n + 1, i, currProgress, currFrame =>
    if i % 2 = 1 then
      { kind := .slow,
        startProgress := currProgress,
        endProgress := currProgress + slowSegmentSize,
        startFrame := currFrame,
        endFrame := currFrame + framesPerSlowSegment,
        serviceIndex := some (i / 2) } ::
      segLoop fastSegmentSize slowSegmentSize framesPerFastSegment framesPerSlowSegment
        n (i + 1) (currProgress + slowSegmentSize) (currFrame + framesPerSlowSegment)
    else
      { kind := .fast,
        startProgress := currProgress,
        endProgress := currProgress + fastSegmentSize,
        startFrame := currFrame,
        endFrame := currFrame + framesPerFastSegment,
        serviceIndex := none } ::
      segLoop fastSegmentSize slowSegmentSize framesPerFastSegment framesPerSlowSegment
        n (i + 1) (currProgress + fastSegmentSize) (currFrame + framesPerFastSegment)

/-- The post-construction clamp: the final segment's `endFrame` is forced to
`totalFrames - 1` and its `endProgress` to exactly `1`. -/
def clampLast (totalFrames : ℕ) : List Segment → List Segment
  | [] => []
  | [s] => [{ s with endFrame := (totalFrames : ℤ) - 1, endProgress := 1 }]
  | s :: t :: rest => s :: clampLast totalFrames (t :: rest)

/-- Full segment-plan construction of `ScrollVideo`, parametrised by the
frame-allocation constants (`FAST_FRAME_ALLOCATION` / `SLOW_FRAME_ALLOCATION`
are `0.6` / `0.4` in the source). -/
def buildSegments (serviceCount totalFrames : ℕ) (fastAlloc slowAlloc : ℚ) :
    List Segment :=
  let fastSegments := serviceCount + 1
  let slowSegments := serviceCount
  let totalSegments := fastSegments + slowSegments
  let fastSegmentSize : ℚ := 1 / totalSegments
  let slowSegmentSize : ℚ := 1 / totalSegments
  let framesPerFastSegment : ℤ := ⌊((totalFrames : ℚ) * fastAlloc) / fastSegments⌋
  let framesPerSlowSegment : ℤ := ⌊((totalFrames : ℚ) * slowAlloc) / slowSegments⌋
  clampLast totalFrames
    (segLoop fastSegmentSize slowSegmentSize framesPerFastSegment framesPerSlowSegment
      totalSegments 0 0 0)

/-! ## Scroll segment mapper: per-update resolution (the `onUpdate` callback) -/

/-- The half-open range test of the `segments.find` callback:
`scrollProgress >= seg.startProgress && scrollProgress < seg.endProgress`. -/
def segMatches (seg : Segment) (scrollProgress : ℚ) : Bool :=
  decide (seg.startProgress ≤ scrollProgress) && decide (scrollProgress < seg.endProgress)

/-- Segment lookup with fallback to the last segment
(`segments.find(...) || segments[segments.length - 1]`). -/
def findSegment (segments : List Segment) (scrollProgress : ℚ) : Option Segment :=
  match segments.find? (fun seg => segMatches seg scrollProgress) with
  | some seg => some seg
  | none => segments.getLast?

/-- Frame index derived from a segment:
`Math.min(Math.max(0, Math.floor(startFrame + segProg * frameRange)), totalFrames - 1)`. -/
def frameIndexOf (totalFrames : ℕ) (seg : Segment) (scrollProgress : ℚ) : ℤ :=
  let segProg : ℚ := (scrollProgress - seg.startProgress) /
    (seg.endProgress - seg.startProgress)
  let frameRange : ℤ := seg.endFrame - seg.startFrame
  min (max 0 ⌊(seg.startFrame : ℚ) + segProg * (frameRange : ℚ)⌋) ((totalFrames : ℤ) - 1)

/-- One `onUpdate` tick: resolve the active segment (with last-segment
fallback) and compute the clamped frame index. -/
def resolveFrameIndex (totalFrames : ℕ) (segments : List Segment)
    (scrollProgress : ℚ) : ℤ :=
  match findSegment segments scrollProgress with
  | some seg => frameIndexOf totalFrames seg scrollProgress
  | none => 0

/-! ## Closed form of the construction loop -/

/-- Number of even naturals in the interval `[i, i+j)`. -/
def evensIn (i j : ℕ) : ℕ := (i + j + 1) / 2 - (i + 1) / 2

/-- Number of odd naturals in the interval `[i, i+j)`. -/
def oddsIn (i j : ℕ) : ℕ := j - evensIn i j

/-- The segment emitted at offset `j` by `segLoop` entered with loop counter
`i`, scroll progress `p` and frame counter `f`. -/
def rawSegAt (fsz ssz : ℚ) (fpf fps : ℤ) (i : ℕ) (p : ℚ) (f : ℤ) (j : ℕ) :
    Segment :=
  { kind := if (i + j) % 2 = 1 then .slow else .fast
    startProgress := p + evensIn i j * fsz + oddsIn i j * ssz
    endProgress := p + evensIn i (j + 1) * fsz + oddsIn i (j + 1) * ssz
    startFrame := f + evensIn i j * fpf + oddsIn i j * fps
    endFrame := f + evensIn i (j + 1) * fpf + oddsIn i (j + 1) * fps
    serviceIndex := if (i + j) % 2 = 1 then some ((i + j) / 2) else none }

lemma evensIn_zero (i : ℕ) : evensIn i 0 = 0 := by
  simp [evensIn]

lemma oddsIn_zero (i : ℕ) : oddsIn i 0 = 0 := by
  simp [oddsIn, evensIn_zero]

lemma evensIn_one_even {i : ℕ} (h : i % 2 = 0) : evensIn i 1 = 1 := by
  unfold evensIn; omega

lemma evensIn_one_odd {i : ℕ} (h : i % 2 = 1) : evensIn i 1 = 0 := by
  unfold evensIn; omega

lemma evensIn_succ_even {i j : ℕ} (h : i % 2 = 0) :
    evensIn i (j + 1) = evensIn (i + 1) j + 1 := by
  unfold evensIn; omega

lemma evensIn_succ_odd {i j : ℕ} (h : i % 2 = 1) :
    evensIn i (j + 1) = evensIn (i + 1) j := by
  unfold evensIn; omega

lemma oddsIn_succ_even {i j : ℕ} (h : i % 2 = 0) :
    oddsIn i (j + 1) = oddsIn (i + 1) j := by
  unfold oddsIn evensIn; omega

lemma oddsIn_succ_odd {i j : ℕ} (h : i % 2 = 1) :
    oddsIn i (j + 1) = oddsIn (i + 1) j + 1 := by
  unfold oddsIn evensIn; omega

lemma evensIn_zero_left (j : ℕ) : evensIn 0 j = (j + 1) / 2 := by
  unfold evensIn; omega

lemma oddsIn_zero_left (j : ℕ) : oddsIn 0 j = j / 2 := by
  unfold oddsIn evensIn; omega

/-- `segLoop` produces exactly the closed-form segments. -/
lemma segLoop_eq_map (fsz ssz : ℚ) (fpf fps : ℤ) :
    ∀ (n i : ℕ) (p : ℚ) (f : ℤ),
      segLoop fsz ssz fpf fps n i p f =
        (List.range n).map (rawSegAt fsz ssz fpf fps i p f) := by
  intro n
  induction n with
  | zero => intro i p f; rfl
  | succ n ih =>
    intro i p f
    rw [List.range_succ_eq_map, List.map_cons, List.map_map]
    rcases Nat.even_or_odd i with hi | hi
    · have h2 : i % 2 = 0 := Nat.even_iff.mp hi
      have h2' : ¬ (i % 2 = 1) := by omega
      rw [segLoop, if_neg h2', ih]
      refine congrArg₂ _ ?_ (List.map_congr_left ?_)
      · simp [rawSegAt, evensIn_zero, oddsIn_zero, evensIn_one_even h2, h2',
          oddsIn, evensIn_one_even h2]
      · intro j _
        simp only [Function.comp_apply, rawSegAt, Nat.succ_eq_add_one]
        have hadd : i + (j + 1) = (i + 1) + j := by omega
        rw [evensIn_succ_even h2, oddsIn_succ_even h2,
          evensIn_succ_even (i := i) (j := j + 1) h2,
          oddsIn_succ_even (i := i) (j := j + 1) h2, hadd]
        refine Segment.mk.injEq .. ▸ ⟨rfl, by push_cast; ring, by push_cast; ring,
          by push_cast; ring, by push_cast; ring, rfl⟩
    · have h2 : i % 2 = 1 := Nat.odd_iff.mp hi
      rw [segLoop, if_pos h2, ih]
      refine congrArg₂ _ ?_ (List.map_congr_left ?_)
      · simp [rawSegAt, evensIn_zero, oddsIn_zero, evensIn_one_odd h2, h2, oddsIn]
      · intro j _
        simp only [Function.comp_apply, rawSegAt, Nat.succ_eq_add_one]
        have hadd : i + (j + 1) = (i + 1) + j := by omega
        rw [evensIn_succ_odd h2, oddsIn_succ_odd h2,
          evensIn_succ_odd (i := i) (j := j + 1) h2,
          oddsIn_succ_odd (i := i) (j := j + 1) h2, hadd]
        refine Segment.mk.injEq .. ▸ ⟨rfl, by push_cast; ring, by push_cast; ring,
          by push_cast; ring, by push_cast; ring, rfl⟩

/-- `clampLast` rewrites only the final segment. -/
lemma clampLast_append (N : ℕ) (l : List Segment) (s : Segment) :
    clampLast N (l ++ [s]) =
      l ++ [{ s with endFrame := (N : ℤ) - 1, endProgress := 1 }] := by
  induction l with
  | nil => rfl
  | cons a l ih =>
    cases l with
    | nil => rfl
    | cons b l' => simpa [clampLast] using ih

/-- Frame offset at which segment `j` starts (before the final clamp):
`⌈j/2⌉` fast segments and `⌊j/2⌋` slow segments precede it. -/
def startFrameAt (fpf fps : ℤ) (j : ℕ) : ℤ :=
  ((j + 1) / 2 : ℕ) * fpf + ((j / 2 : ℕ) : ℤ) * fps

/-- Closed form of segment `j` of the finished plan. -/
def segAt (serviceCount totalFrames : ℕ) (fastAlloc slowAlloc : ℚ) (j : ℕ) :
    Segment :=
  let n : ℕ := 2 * serviceCount + 1
  let fpf : ℤ := ⌊((totalFrames : ℚ) * fastAlloc) / ((serviceCount + 1 : ℕ) : ℚ)⌋
  let fps : ℤ := ⌊((totalFrames : ℚ) * slowAlloc) / ((serviceCount : ℕ) : ℚ)⌋
  { kind := if j % 2 = 1 then .slow else .fast
    startProgress := (j : ℚ) / n
    endProgress := ((j : ℚ) + 1) / n
    startFrame := startFrameAt fpf fps j
    endFrame := if j = 2 * serviceCount then (totalFrames : ℤ) - 1
                else startFrameAt fpf fps (j + 1)
    serviceIndex := if j % 2 = 1 then some (j / 2) else none }

/-- The segment plan is exactly the closed-form list of `2·serviceCount + 1`
segments. -/
theorem buildSegments_eq_map (B N : ℕ) (Fa Fs : ℚ) :
    buildSegments B N Fa Fs =
      (List.range (2 * B + 1)).map (segAt B N Fa Fs) := by
  have hn : (B + 1) + B = 2 * B + 1 := by omega
  have hnq : ((2 * B + 1 : ℕ) : ℚ) ≠ 0 := by positivity
  unfold buildSegments
  simp only
  rw [hn, segLoop_eq_map, List.range_succ, List.map_append, List.map_singleton,
    clampLast_append, List.map_append, List.map_singleton]
  refine congrArg₂ _ (List.map_congr_left ?_) ?_
  · intro j hj
    have hj' : j < 2 * B := List.mem_range.mp hj
    have hne : ¬ (j = 2 * B) := by omega
    have he : ((j + 1) / 2 : ℕ) + (j / 2 : ℕ) = j := by omega
    have he' : ((j + 1 + 1) / 2 : ℕ) + ((j + 1) / 2 : ℕ) = j + 1 := by omega
    simp only [rawSegAt, segAt, startFrameAt, if_neg hne,
      evensIn_zero_left, oddsIn_zero_left, Nat.zero_add, zero_add]
    rw [Segment.mk.injEq]
    refine ⟨rfl, ?_, ?_, rfl, rfl, rfl⟩
    · rw [← add_mul, ← Nat.cast_add, he, mul_one_div]
    · rw [← add_mul, ← Nat.cast_add, he', mul_one_div]
      push_cast
      ring
  · have h2 : ¬ ((2 * B) % 2 = 1) := by omega
    have he : ((2 * B + 1) / 2 : ℕ) + (2 * B / 2 : ℕ) = 2 * B := by omega
    have hc : ((2 * B : ℕ) : ℚ) + 1 = ((2 * B + 1 : ℕ) : ℚ) := by push_cast; ring
    simp only [rawSegAt, segAt, startFrameAt, Nat.zero_add, zero_add,
      if_neg h2, evensIn_zero_left, oddsIn_zero_left, eq_self_iff_true,
      if_true, List.cons.injEq, and_true]
    rw [Segment.mk.injEq]
    refine ⟨rfl, ?_, ?_, rfl, rfl, rfl⟩
    · rw [← add_mul, ← Nat.cast_add, he, mul_one_div]
    · rw [hc, div_self hnq]

/-! ## Resolution: which segment the `onUpdate` lookup selects -/

/-- `framesPerFastSegment` of the construction. -/
def fpfOf (serviceCount totalFrames : ℕ) (fastAlloc : ℚ) : ℤ :=
  ⌊((totalFrames : ℚ) * fastAlloc) / ((serviceCount + 1 : ℕ) : ℚ)⌋

/-- `framesPerSlowSegment` of the construction. -/
def fpsOf (serviceCount totalFrames : ℕ) (slowAlloc : ℚ) : ℤ :=
  ⌊((totalFrames : ℚ) * slowAlloc) / ((serviceCount : ℕ) : ℚ)⌋

/-- End frame of segment `j` in the finished plan (clamped on the last). -/
def endFrameAt (serviceCount totalFrames : ℕ) (fastAlloc slowAlloc : ℚ)
    (j : ℕ) : ℤ :=
  if j = 2 * serviceCount then (totalFrames : ℤ) - 1
  else startFrameAt (fpfOf serviceCount totalFrames fastAlloc)
    (fpsOf serviceCount totalFrames slowAlloc) (j + 1)

lemma segAt_startProgress (B N : ℕ) (Fa Fs : ℚ) (j : ℕ) :
    (segAt B N Fa Fs j).startProgress = (j : ℚ) / ((2 * B + 1 : ℕ) : ℚ) := rfl

lemma segAt_endProgress (B N : ℕ) (Fa Fs : ℚ) (j : ℕ) :
    (segAt B N Fa Fs j).endProgress = ((j : ℚ) + 1) / ((2 * B + 1 : ℕ) : ℚ) := rfl

lemma segAt_startFrame (B N : ℕ) (Fa Fs : ℚ) (j : ℕ) :
    (segAt B N Fa Fs j).startFrame =
      startFrameAt (fpfOf B N Fa) (fpsOf B N Fs) j := rfl

lemma segAt_endFrame (B N : ℕ) (Fa Fs : ℚ) (j : ℕ) :
    (segAt B N Fa Fs j).endFrame = endFrameAt B N Fa Fs j := rfl

lemma segAt_kind (B N : ℕ) (Fa Fs : ℚ) (j : ℕ) :
    (segAt B N Fa Fs j).kind = if j % 2 = 1 then .slow else .fast := rfl

lemma segAt_serviceIndex (B N : ℕ) (Fa Fs : ℚ) (j : ℕ) :
    (segAt B N Fa Fs j).serviceIndex =
      if j % 2 = 1 then some (j / 2) else none := rfl

lemma buildSegments_ne_nil (B N : ℕ) (Fa Fs : ℚ) :
    buildSegments B N Fa Fs ≠ [] := by
  rw [buildSegments_eq_map]
  simp [List.range_succ]

/-- `find?` over `range'` returns the first index satisfying the test. -/
lemma find?_range'_some (q : ℕ → Bool) :
    ∀ (n s j : ℕ), j < n → q (s + j) = true → (∀ k, k < j → q (s + k) = false) →
      (List.range' s n).find? q = some (s + j) := by
  intro n
  induction n with
  | zero => intro s j hj _ _; omega
  | succ n ih =>
    intro s j hj hq hmin
    rw [List.range'_succ]
    cases j with
    | zero => exact List.find?_cons_of_pos _ (by simpa using hq)
    | succ k =>
      have hqs : q s = false := by simpa using hmin 0 (Nat.succ_pos k)
      rw [List.find?_cons_of_neg _ (by simp [hqs])]
      have h1 : q ((s + 1) + k) = true := by
        have : (s + 1) + k = s + (k + 1) := by omega
        rw [this]; exact hq
      have h2 : ∀ m, m < k → q ((s + 1) + m) = false := by
        intro m hm
        have : (s + 1) + m = s + (m + 1) := by omega
        rw [this]; exact hmin (m + 1) (by omega)
      have := ih (s + 1) k (by omega) h1 h2
      rw [this]
      congr 1
      omega

/-- `find?` over `range'` fails when no index satisfies the test. -/
lemma find?_range'_none (q : ℕ → Bool) :
    ∀ (n s : ℕ), (∀ k, k < n → q (s + k) = false) →
      (List.range' s n).find? q = none := by
  intro n
  induction n with
  | zero => intro s _; rfl
  | succ n ih =>
    intro s hmin
    rw [List.range'_succ]
    have hqs : q s = false := by simpa using hmin 0 (Nat.succ_pos n)
    rw [List.find?_cons_of_neg _ (by simp [hqs])]
    exact ih (s + 1) fun k hk => by
      have : (s + 1) + k = s + (k + 1) := by omega
      rw [this]; exact hmin (k + 1) (by omega)

/-- The half-open range test on closed-form segment `j`. -/
lemma segMatches_segAt (B N : ℕ) (Fa Fs : ℚ) (j : ℕ) (s : ℚ) :
    segMatches (segAt B N Fa Fs j) s = true ↔
      ((j : ℚ) ≤ s * ((2 * B + 1 : ℕ) : ℚ) ∧
        s * ((2 * B + 1 : ℕ) : ℚ) < (j : ℚ) + 1) := by
  have hn : (0 : ℚ) < ((2 * B + 1 : ℕ) : ℚ) := by positivity
  rw [segMatches, Bool.and_eq_true, decide_eq_true_iff, decide_eq_true_iff,
    segAt_startProgress, segAt_endProgress, div_le_iff₀ hn, lt_div_iff₀ hn]

/-- For `0 ≤ s < 1` the lookup finds segment `⌊s·(2B+1)⌋`. -/
lemma findSegment_buildSegments_of_lt (B N : ℕ) (Fa Fs : ℚ) {s : ℚ}
    (h0 : 0 ≤ s) (h1 : s < 1) :
    findSegment (buildSegments B N Fa Fs) s =
      some (segAt B N Fa Fs (⌊s * ((2 * B + 1 : ℕ) : ℚ)⌋.toNat)) := by
  have hn : (0 : ℚ) < ((2 * B + 1 : ℕ) : ℚ) := by positivity
  set x : ℚ := s * ((2 * B + 1 : ℕ) : ℚ) with hx
  have hx0 : 0 ≤ x := mul_nonneg h0 hn.le
  have hfl0 : 0 ≤ ⌊x⌋ := Int.floor_nonneg.mpr hx0
  set j : ℕ := ⌊x⌋.toNat with hj
  have hjx : ((j : ℤ) : ℚ) = ((⌊x⌋ : ℤ) : ℚ) := by
    rw [hj, Int.toNat_of_nonneg hfl0]
  have hjle : (j : ℚ) ≤ x := by
    rw [show ((j : ℕ) : ℚ) = ((j : ℤ) : ℚ) by push_cast; ring, hjx]
    exact Int.floor_le x
  have hjlt : x < (j : ℚ) + 1 := by
    rw [show ((j : ℕ) : ℚ) = ((j : ℤ) : ℚ) by push_cast; ring, hjx]
    exact Int.lt_floor_add_one x
  have hxlt : x < ((2 * B + 1 : ℕ) : ℚ) := by
    calc x < 1 * ((2 * B + 1 : ℕ) : ℚ) := by
          rw [hx]; exact mul_lt_mul_of_pos_right h1 hn
      _ = _ := one_mul _
  have hjn : j < 2 * B + 1 := by
    have : ⌊x⌋ < ((2 * B + 1 : ℕ) : ℤ) := by
      rw [Int.floor_lt]; exact_mod_cast hxlt
    omega
  rw [findSegment, buildSegments_eq_map, List.find?_map, List.range_eq_range']
  simp only [Function.comp_def]
  rw [find?_range'_some (fun k => segMatches (segAt B N Fa Fs k) s)
    (2 * B + 1) 0 j hjn
    (by rw [Nat.zero_add]; exact (segMatches_segAt ..).mpr ⟨hjle, hjlt⟩)
    (fun k hk => by
      rw [Nat.zero_add]
      rw [← Bool.not_eq_true, segMatches_segAt]
      rintro ⟨-, hlt⟩
      have : ((k : ℚ) + 1) ≤ (j : ℚ) := by exact_mod_cast hk
      exact absurd (hlt.trans_le (le_trans this hjle)) (lt_irrefl _))]
  simp

/-- For `s ≥ 1` every half-open test fails and the lookup falls back to the
last segment. -/
lemma findSegment_buildSegments_of_ge (B N : ℕ) (Fa Fs : ℚ) {s : ℚ}
    (h1 : 1 ≤ s) :
    (buildSegments B N Fa Fs).find? (fun seg => segMatches seg s) = none ∧
    findSegment (buildSegments B N Fa Fs) s =
      some (segAt B N Fa Fs (2 * B)) := by
  have hn : (0 : ℚ) < ((2 * B + 1 : ℕ) : ℚ) := by positivity
  have hnone : (buildSegments B N Fa Fs).find?
      (fun seg => segMatches seg s) = none := by
    rw [buildSegments_eq_map, List.find?_map, List.range_eq_range']
    simp only [Function.comp_def]
    rw [find?_range'_none (fun k => segMatches (segAt B N Fa Fs k) s)
      (2 * B + 1) 0 (fun k hk => by
        rw [Nat.zero_add, ← Bool.not_eq_true, segMatches_segAt]
        rintro ⟨-, hlt⟩
        have hk1 : ((k : ℚ) + 1) ≤ ((2 * B + 1 : ℕ) : ℚ) := by exact_mod_cast hk
        have hsn : ((2 * B + 1 : ℕ) : ℚ) ≤ s * ((2 * B + 1 : ℕ) : ℚ) := by
          calc ((2 * B + 1 : ℕ) : ℚ) = 1 * ((2 * B + 1 : ℕ) : ℚ) := (one_mul _).symm
            _ ≤ s * ((2 * B + 1 : ℕ) : ℚ) := mul_le_mul_of_nonneg_right h1 hn.le
        exact absurd (hlt.trans_le (hk1.trans hsn)) (lt_irrefl _))]
    simp
  refine ⟨hnone, ?_⟩
  rw [findSegment, hnone, buildSegments_eq_map, List.range_succ, List.map_append,
    List.map_singleton, List.getLast?_concat]

/-- For `s < 0` every test fails on its lower bound and the lookup falls back
to the last segment. -/
lemma findSegment_buildSegments_of_neg (B N : ℕ) (Fa Fs : ℚ) {s : ℚ}
    (h0 : s < 0) :
    findSegment (buildSegments B N Fa Fs) s =
      some (segAt B N Fa Fs (2 * B)) := by
  have hnone : (buildSegments B N Fa Fs).find?
      (fun seg => segMatches seg s) = none := by
    rw [buildSegments_eq_map, List.find?_map, List.range_eq_range']
    simp only [Function.comp_def]
    rw [find?_range'_none (fun k => segMatches (segAt B N Fa Fs k) s)
      (2 * B + 1) 0 (fun k hk => by
        rw [Nat.zero_add, ← Bool.not_eq_true, segMatches_segAt]
        rintro ⟨hle, -⟩
        have hsn : s * ((2 * B + 1 : ℕ) : ℚ) < 0 := by
          have hn : (0 : ℚ) < ((2 * B + 1 : ℕ) : ℚ) := by positivity
          exact mul_neg_of_neg_of_pos h0 hn
        have : (0 : ℚ) ≤ (k : ℚ) := Nat.cast_nonneg k
        exact absurd ((this.trans hle).trans_lt hsn) (lt_irrefl _))]
    simp
  rw [findSegment, hnone, buildSegments_eq_map, List.range_succ, List.map_append,
    List.map_singleton, List.getLast?_concat]

/-! ## Frame-index arithmetic -/

lemma clamp_mono {x y c : ℤ} (h : x ≤ y) :
    min (max 0 x) c ≤ min (max 0 y) c :=
  min_le_min (max_le_max le_rfl h) le_rfl

lemma clamp_eq_of_ge {x c : ℤ} (h : c ≤ x) : min (max 0 x) c = c :=
  min_eq_right (h.trans (le_max_right 0 x))

lemma clamp_le_right {x c : ℤ} : min (max 0 x) c ≤ c := min_le_right _ _

lemma fpfOf_nonneg (B N : ℕ) {Fa : ℚ} (hFa : 0 ≤ Fa) : 0 ≤ fpfOf B N Fa :=
  Int.floor_nonneg.mpr
    (div_nonneg (mul_nonneg (Nat.cast_nonneg N) hFa) (Nat.cast_nonneg _))

lemma fpsOf_nonneg (B N : ℕ) {Fs : ℚ} (hFs : 0 ≤ Fs) : 0 ≤ fpsOf B N Fs :=
  Int.floor_nonneg.mpr
    (div_nonneg (mul_nonneg (Nat.cast_nonneg N) hFs) (Nat.cast_nonneg _))

lemma startFrameAt_mono {fpf fps : ℤ} (hf : 0 ≤ fpf) (hs : 0 ≤ fps)
    {j k : ℕ} (h : j ≤ k) :
    startFrameAt fpf fps j ≤ startFrameAt fpf fps k := by
  unfold startFrameAt
  have h1 : ((j + 1) / 2 : ℕ) ≤ ((k + 1) / 2 : ℕ) := by omega
  have h2 : (j / 2 : ℕ) ≤ (k / 2 : ℕ) := by omega
  have c1 : (((j + 1) / 2 : ℕ) : ℤ) ≤ (((k + 1) / 2 : ℕ) : ℤ) := by exact_mod_cast h1
  have c2 : ((j / 2 : ℕ) : ℤ) ≤ ((k / 2 : ℕ) : ℤ) := by exact_mod_cast h2
  exact add_le_add (mul_le_mul_of_nonneg_right c1 hf)
    (mul_le_mul_of_nonneg_right c2 hs)

/-- `frameIndexOf` on closed-form segment `j`, with the local progress
rewritten to `s·(2B+1) - j` (segment widths are uniformly `1/(2B+1)`). -/
lemma frameIndexOf_segAt (B N : ℕ) (Fa Fs : ℚ) (j : ℕ) (s : ℚ) :
    frameIndexOf N (segAt B N Fa Fs j) s =
      min (max 0 ⌊((startFrameAt (fpfOf B N Fa) (fpsOf B N Fs) j : ℤ) : ℚ) +
        (s * ((2 * B + 1 : ℕ) : ℚ) - (j : ℚ)) *
          ((endFrameAt B N Fa Fs j -
            startFrameAt (fpfOf B N Fa) (fpsOf B N Fs) j : ℤ) : ℚ)⌋)
        ((N : ℤ) - 1) := by
  have hnq : ((2 * B + 1 : ℕ) : ℚ) ≠ 0 := by positivity
  have hsp : (s - (j : ℚ) / ((2 * B + 1 : ℕ) : ℚ)) /
      (((j : ℚ) + 1) / ((2 * B + 1 : ℕ) : ℚ) -
        (j : ℚ) / ((2 * B + 1 : ℕ) : ℚ)) =
      s * ((2 * B + 1 : ℕ) : ℚ) - (j : ℚ) := by
    rw [div_sub_div_same, show ((j : ℚ) + 1 - (j : ℚ)) = 1 from by ring,
      one_div, div_inv_eq_mul, sub_mul, div_mul_cancel₀ _ hnq]
  simp only [frameIndexOf, segAt_startProgress, segAt_endProgress,
    segAt_startFrame, segAt_endFrame, hsp]

/-- Master monotonicity step: resolving in segment `j1` at `s1` never exceeds
resolving in segment `j2 ≥ j1` at `s2 ≥ s1`, for nonnegative frame
allocations. -/
lemma frameIndexOf_segAt_mono (B N : ℕ) {Fa Fs : ℚ}
    (hFa : 0 ≤ Fa) (hFs : 0 ≤ Fs) {j1 j2 : ℕ} {s1 s2 : ℚ}
    (hj12 : j1 ≤ j2) (hj2 : j2 ≤ 2 * B)
    (h1a : (j1 : ℚ) ≤ s1 * ((2 * B + 1 : ℕ) : ℚ))
    (h1b : s1 * ((2 * B + 1 : ℕ) : ℚ) ≤ (j1 : ℚ) + 1)
    (h2a : (j2 : ℚ) ≤ s2 * ((2 * B + 1 : ℕ) : ℚ))
    (h2b : s2 * ((2 * B + 1 : ℕ) : ℚ) ≤ (j2 : ℚ) + 1)
    (hs : s1 ≤ s2) :
    frameIndexOf N (segAt B N Fa Fs j1) s1 ≤
      frameIndexOf N (segAt B N Fa Fs j2) s2 := by
  have hnq : (0 : ℚ) < ((2 * B + 1 : ℕ) : ℚ) := by positivity
  have hfpf := fpfOf_nonneg B N hFa
  have hfps := fpsOf_nonneg B N hFs
  set fpf := fpfOf B N Fa
  set fps := fpsOf B N Fs
  rw [frameIndexOf_segAt, frameIndexOf_segAt]
  set a1 : ℤ := startFrameAt fpf fps j1 with ha1
  set a2 : ℤ := startFrameAt fpf fps j2 with ha2
  set e1 : ℤ := endFrameAt B N Fa Fs j1 with he1
  set e2 : ℤ := endFrameAt B N Fa Fs j2 with he2
  set t1 : ℚ := s1 * ((2 * B + 1 : ℕ) : ℚ) - (j1 : ℚ) with ht1
  set t2 : ℚ := s2 * ((2 * B + 1 : ℕ) : ℚ) - (j2 : ℚ) with ht2
  have ht10 : 0 ≤ t1 := by rw [ht1]; linarith
  have ht11 : t1 ≤ 1 := by rw [ht1]; linarith
  have ht20 : 0 ≤ t2 := by rw [ht2]; linarith
  have ht21 : t2 ≤ 1 := by rw [ht2]; linarith
  rcases Nat.lt_or_ge j1 j2 with hlt | hge
  · -- j1 < j2 : crossing at least one segment boundary
    have hj1top : ¬ (j1 = 2 * B) := by omega
    have he1' : e1 = startFrameAt fpf fps (j1 + 1) := by
      rw [he1, endFrameAt, if_neg hj1top]
    have ha1e1 : a1 ≤ e1 := by
      rw [he1', ha1]; exact startFrameAt_mono hfpf hfps (Nat.le_succ j1)
    -- upper bound of the left value: at most startFrame of segment j2
    have hraw1 : (a1 : ℚ) + t1 * ((e1 - a1 : ℤ) : ℚ) ≤ ((e1 : ℤ) : ℚ) := by
      have hd : (0 : ℚ) ≤ ((e1 - a1 : ℤ) : ℚ) :=
        Int.cast_nonneg.mpr (sub_nonneg.mpr ha1e1)
      have key : (0 : ℚ) ≤ (1 - t1) * ((e1 - a1 : ℤ) : ℚ) :=
        mul_nonneg (by linarith) hd
      push_cast at key ⊢
      nlinarith [key]
    have hfl1 : ⌊(a1 : ℚ) + t1 * ((e1 - a1 : ℤ) : ℚ)⌋ ≤ a2 := by
      have : ⌊(a1 : ℚ) + t1 * ((e1 - a1 : ℤ) : ℚ)⌋ ≤ ⌊((e1 : ℤ) : ℚ)⌋ :=
        Int.floor_le_floor hraw1
      rw [Int.floor_intCast] at this
      refine this.trans ?_
      rw [he1', ha2]
      exact startFrameAt_mono hfpf hfps (by omega)
    rcases le_or_lt a2 e2 with ha2e2 | ha2e2
    · -- segment j2 still ascending: its value is at least startFrame j2
      have hraw2 : ((a2 : ℤ) : ℚ) ≤ (a2 : ℚ) + t2 * ((e2 - a2 : ℤ) : ℚ) := by
        have hd : (0 : ℚ) ≤ ((e2 - a2 : ℤ) : ℚ) :=
          Int.cast_nonneg.mpr (sub_nonneg.mpr ha2e2)
        nlinarith [mul_nonneg ht20 hd]
      have hfl2 : a2 ≤ ⌊(a2 : ℚ) + t2 * ((e2 - a2 : ℤ) : ℚ)⌋ := by
        have := Int.floor_le_floor hraw2
        rwa [Int.floor_intCast] at this
      exact (clamp_mono hfl1).trans (clamp_mono hfl2)
    · -- degenerate clamped last segment: the right value is exactly N - 1
      have hj2top : j2 = 2 * B := by
        by_contra hne
        have : e2 = startFrameAt fpf fps (j2 + 1) := by
          rw [he2, endFrameAt, if_neg hne]
        rw [this, ha2] at ha2e2
        exact absurd (startFrameAt_mono hfpf hfps (Nat.le_succ j2))
          (not_le.mpr ha2e2)
      have he2N : e2 = (N : ℤ) - 1 := by rw [he2, endFrameAt, if_pos hj2top]
      have hraw2 : ((e2 : ℤ) : ℚ) ≤ (a2 : ℚ) + t2 * ((e2 - a2 : ℤ) : ℚ) := by
        have hd : (0 : ℚ) ≤ ((a2 - e2 : ℤ) : ℚ) :=
          Int.cast_nonneg.mpr (sub_nonneg.mpr ha2e2.le)
        have key : (0 : ℚ) ≤ (1 - t2) * ((a2 - e2 : ℤ) : ℚ) :=
          mul_nonneg (by linarith) hd
        push_cast at key ⊢
        nlinarith [key]
      have hfl2 : (N : ℤ) - 1 ≤ ⌊(a2 : ℚ) + t2 * ((e2 - a2 : ℤ) : ℚ)⌋ := by
        have := Int.floor_le_floor hraw2
        rw [← he2N]
        rwa [Int.floor_intCast] at this
      rw [clamp_eq_of_ge hfl2]
      exact clamp_le_right
  · -- same segment
    have hj : j1 = j2 := by omega
    subst hj
    have ht12 : t1 ≤ t2 := by
      rw [ht1, ht2]
      have := mul_le_mul_of_nonneg_right hs hnq.le
      linarith
    rcases le_or_lt a1 e1 with hae | hae
    · have hd : (0 : ℚ) ≤ ((e1 - a1 : ℤ) : ℚ) :=
        Int.cast_nonneg.mpr (sub_nonneg.mpr hae)
      refine clamp_mono (Int.floor_le_floor ?_)
      have := mul_le_mul_of_nonneg_right ht12 hd
      linarith
    · -- descending only possible on the clamped last segment; both ends clamp
      have hj1top : j1 = 2 * B := by
        by_contra hne
        have : e1 = startFrameAt fpf fps (j1 + 1) := by
          rw [he1, endFrameAt, if_neg hne]
        rw [this, ha1] at hae
        exact absurd (startFrameAt_mono hfpf hfps (Nat.le_succ j1))
          (not_le.mpr hae)
      have he1N : e1 = (N : ℤ) - 1 := by rw [he1, endFrameAt, if_pos hj1top]
      have hd : (0 : ℚ) ≤ ((a1 - e1 : ℤ) : ℚ) :=
        Int.cast_nonneg.mpr (sub_nonneg.mpr hae.le)
      have key1 : ((e1 : ℤ) : ℚ) ≤ (a1 : ℚ) + t1 * ((e1 - a1 : ℤ) : ℚ) := by
        have key : (0 : ℚ) ≤ (1 - t1) * ((a1 - e1 : ℤ) : ℚ) :=
          mul_nonneg (by linarith) hd
        push_cast at key ⊢
        nlinarith [key]
      have key2 : ((e1 : ℤ) : ℚ) ≤ (a1 : ℚ) + t2 * ((e1 - a1 : ℤ) : ℚ) := by
        have key : (0 : ℚ) ≤ (1 - t2) * ((a1 - e1 : ℤ) : ℚ) :=
          mul_nonneg (by linarith) hd
        push_cast at key ⊢
        nlinarith [key]
      have hfl1 : (N : ℤ) - 1 ≤ ⌊(a1 : ℚ) + t1 * ((e1 - a1 : ℤ) : ℚ)⌋ := by
        have := Int.floor_le_floor key1
        rw [← he1N]
        rwa [Int.floor_intCast] at this
      have hfl2 : (N : ℤ) - 1 ≤ ⌊(a1 : ℚ) + t2 * ((e1 - a1 : ℤ) : ℚ)⌋ := by
        have := Int.floor_le_floor key2
        rw [← he1N]
        rwa [Int.floor_intCast] at this
      rw [clamp_eq_of_ge hfl1, clamp_eq_of_ge hfl2]

/-! ## Resolution closed forms -/

lemma resolveFrameIndex_of_lt (B N : ℕ) (Fa Fs : ℚ) {s : ℚ}
    (h0 : 0 ≤ s) (h1 : s < 1) :
    resolveFrameIndex N (buildSegments B N Fa Fs) s =
      frameIndexOf N (segAt B N Fa Fs (⌊s * ((2 * B + 1 : ℕ) : ℚ)⌋.toNat)) s := by
  simp only [resolveFrameIndex, findSegment_buildSegments_of_lt B N Fa Fs h0 h1]

lemma resolveFrameIndex_of_ge (B N : ℕ) (Fa Fs : ℚ) {s : ℚ} (h1 : 1 ≤ s) :
    resolveFrameIndex N (buildSegments B N Fa Fs) s =
      frameIndexOf N (segAt B N Fa Fs (2 * B)) s := by
  simp only [resolveFrameIndex, (findSegment_buildSegments_of_ge B N Fa Fs h1).2]

lemma floor_toNat_le (B : ℕ) {s : ℚ} (h0 : 0 ≤ s) (h1 : s < 1) :
    ⌊s * ((2 * B + 1 : ℕ) : ℚ)⌋.toNat ≤ 2 * B := by
  have hn : (0 : ℚ) < ((2 * B + 1 : ℕ) : ℚ) := by positivity
  have hxlt : s * ((2 * B + 1 : ℕ) : ℚ) < ((2 * B + 1 : ℕ) : ℚ) := by
    calc s * ((2 * B + 1 : ℕ) : ℚ) < 1 * ((2 * B + 1 : ℕ) : ℚ) :=
          mul_lt_mul_of_pos_right h1 hn
      _ = _ := one_mul _
  have : ⌊s * ((2 * B + 1 : ℕ) : ℚ)⌋ < ((2 * B + 1 : ℕ) : ℤ) := by
    rw [Int.floor_lt]; exact_mod_cast hxlt
  omega

lemma floor_toNat_le_mul (B : ℕ) {s : ℚ} (h0 : 0 ≤ s) :
    ((⌊s * ((2 * B + 1 : ℕ) : ℚ)⌋.toNat : ℕ) : ℚ) ≤
      s * ((2 * B + 1 : ℕ) : ℚ) := by
  have hn : (0 : ℚ) < ((2 * B + 1 : ℕ) : ℚ) := by positivity
  have hfl0 : 0 ≤ ⌊s * ((2 * B + 1 : ℕ) : ℚ)⌋ :=
    Int.floor_nonneg.mpr (mul_nonneg h0 hn.le)
  calc ((⌊s * ((2 * B + 1 : ℕ) : ℚ)⌋.toNat : ℕ) : ℚ)
      = ((⌊s * ((2 * B + 1 : ℕ) : ℚ)⌋ : ℤ) : ℚ) := by
        rw [show ((⌊s * ((2 * B + 1 : ℕ) : ℚ)⌋.toNat : ℕ) : ℚ)
          = ((⌊s * ((2 * B + 1 : ℕ) : ℚ)⌋.toNat : ℤ) : ℚ) from by push_cast; ring,
          Int.toNat_of_nonneg hfl0]
    _ ≤ _ := Int.floor_le _

lemma mul_le_floor_toNat_add_one (B : ℕ) {s : ℚ} (h0 : 0 ≤ s) :
    s * ((2 * B + 1 : ℕ) : ℚ) ≤
      ((⌊s * ((2 * B + 1 : ℕ) : ℚ)⌋.toNat : ℕ) : ℚ) + 1 := by
  have hn : (0 : ℚ) < ((2 * B + 1 : ℕ) : ℚ) := by positivity
  have hfl0 : 0 ≤ ⌊s * ((2 * B + 1 : ℕ) : ℚ)⌋ :=
    Int.floor_nonneg.mpr (mul_nonneg h0 hn.le)
  have := (Int.lt_floor_add_one (s * ((2 * B + 1 : ℕ) : ℚ))).le
  calc s * ((2 * B + 1 : ℕ) : ℚ)
      ≤ ((⌊s * ((2 * B + 1 : ℕ) : ℚ)⌋ : ℤ) : ℚ) + 1 := this
    _ = _ := by
        rw [show ((⌊s * ((2 * B + 1 : ℕ) : ℚ)⌋.toNat : ℕ) : ℚ)
          = ((⌊s * ((2 * B + 1 : ℕ) : ℚ)⌋.toNat : ℤ) : ℚ) from by push_cast; ring,
          Int.toNat_of_nonneg hfl0]

/-! ## Claim theorems: segment construction and resolution -/

/-- C1: for every `beatCount ≥ 0` and `totalFrames ≥ totalSegments`
(`totalSegments = 2·beatCount + 1`), the segment plan is contiguous and
non-overlapping — each segment's scroll range and frame range start where the
previous one ends — the first segment starts at scroll `0`, the last
segment's `scrollRange.end` is exactly `1` and its `frameRange.end` is
exactly `totalFrames - 1`; so the plan covers exactly `[0, 1)`. -/
theorem segment_plan_contiguous_covers (B N : ℕ) (Fa Fs : ℚ)
    (hN : 2 * B + 1 ≤ N) :
    buildSegments B N Fa Fs ≠ [] ∧
    List.Chain' (fun a b => a.endProgress = b.startProgress ∧
      a.endFrame = b.startFrame) (buildSegments B N Fa Fs) ∧
    (buildSegments B N Fa Fs).head?.map Segment.startProgress = some 0 ∧
    (buildSegments B N Fa Fs).getLast?.map Segment.endProgress = some 1 ∧
    (buildSegments B N Fa Fs).getLast?.map Segment.endFrame =
      some ((N : ℤ) - 1) := by
  refine ⟨buildSegments_ne_nil B N Fa Fs, ?_, ?_, ?_, ?_⟩
  · rw [buildSegments_eq_map, List.chain'_map]
    rw [show (2 * B + 1) = (2 * B).succ from rfl, List.chain'_range_succ]
    intro m hm
    constructor
    · rw [segAt_endProgress, segAt_startProgress]
      push_cast
      ring
    · rw [segAt_endFrame, segAt_startFrame, endFrameAt, if_neg (by omega)]
  · rw [buildSegments_eq_map, List.head?_map, List.range_succ_eq_map]
    simp [segAt_startProgress]
  · rw [buildSegments_eq_map, List.range_succ, List.map_append,
      List.map_singleton, List.getLast?_concat, Option.map_some']
    have hc : ((2 * B : ℕ) : ℚ) + 1 = ((2 * B + 1 : ℕ) : ℚ) := by push_cast; ring
    have hnq : ((2 * B + 1 : ℕ) : ℚ) ≠ 0 := by positivity
    rw [segAt_endProgress, hc, div_self hnq]
  · rw [buildSegments_eq_map, List.range_succ, List.map_append,
      List.map_singleton, List.getLast?_concat, Option.map_some']
    rw [segAt_endFrame, endFrameAt, if_pos rfl]

/-- Witness for C1 at `beatCount = 2`, `totalFrames = 100`, allocations
`0.6` and `0.4`. -/
theorem segment_plan_contiguous_covers_witness :
    2 * 2 + 1 ≤ 100 ∧
    (buildSegments 2 100 (3/5) (2/5) ≠ [] ∧
      List.Chain' (fun a b => a.endProgress = b.startProgress ∧
        a.endFrame = b.startFrame) (buildSegments 2 100 (3/5) (2/5)) ∧
      (buildSegments 2 100 (3/5) (2/5)).head?.map Segment.startProgress =
        some 0 ∧
      (buildSegments 2 100 (3/5) (2/5)).getLast?.map Segment.endProgress =
        some 1 ∧
      (buildSegments 2 100 (3/5) (2/5)).getLast?.map Segment.endFrame =
        some ((100 : ℤ) - 1)) :=
  ⟨by norm_num, segment_plan_contiguous_covers 2 100 (3/5) (2/5) (by norm_num)⟩

/-- C2: at scroll value exactly `1.0` every half-open range test fails,
the lookup falls back to the last segment, and the resolved frame index is
exactly `totalFrames - 1`. -/
theorem top_edge_resolves_last_segment (B N : ℕ) (Fa Fs : ℚ) (hB : 1 ≤ B)
    (hN : 2 * B + 1 ≤ N) :
    (buildSegments B N Fa Fs).find? (fun seg => segMatches seg 1) = none ∧
    findSegment (buildSegments B N Fa Fs) 1 =
      (buildSegments B N Fa Fs).getLast? ∧
    resolveFrameIndex N (buildSegments B N Fa Fs) 1 = (N : ℤ) - 1 := by
  obtain ⟨hnone, hfind⟩ := findSegment_buildSegments_of_ge B N Fa Fs le_rfl
  refine ⟨hnone, ?_, ?_⟩
  · rw [hfind, buildSegments_eq_map, List.range_succ, List.map_append,
      List.map_singleton, List.getLast?_concat]
  · rw [resolveFrameIndex_of_ge B N Fa Fs le_rfl, frameIndexOf_segAt]
    have h1 : (1 : ℚ) * ((2 * B + 1 : ℕ) : ℚ) - ((2 * B : ℕ) : ℚ) = 1 := by
      push_cast
      ring
    rw [endFrameAt, if_pos rfl, h1]
    have h2 : ((startFrameAt (fpfOf B N Fa) (fpsOf B N Fs) (2 * B) : ℤ) : ℚ) +
        1 * ((((N : ℤ) - 1) -
          startFrameAt (fpfOf B N Fa) (fpsOf B N Fs) (2 * B) : ℤ) : ℚ) =
        (((N : ℤ) - 1 : ℤ) : ℚ) := by
      push_cast
      ring
    rw [h2, Int.floor_intCast]
    have hge : 1 ≤ N := by omega
    have hN1 : (0 : ℤ) ≤ (N : ℤ) - 1 := by
      have : (1 : ℤ) ≤ (N : ℤ) := by exact_mod_cast hge
      omega
    rw [max_eq_right hN1, min_self]

/-- Witness for C2 at `beatCount = 2`, `totalFrames = 100`. -/
theorem top_edge_resolves_last_segment_witness :
    (1 ≤ 2 ∧ 2 * 2 + 1 ≤ 100) ∧
    ((buildSegments 2 100 (3/5) (2/5)).find?
        (fun seg => segMatches seg 1) = none ∧
      findSegment (buildSegments 2 100 (3/5) (2/5)) 1 =
        (buildSegments 2 100 (3/5) (2/5)).getLast? ∧
      resolveFrameIndex 100 (buildSegments 2 100 (3/5) (2/5)) 1 =
        (100 : ℤ) - 1) :=
  ⟨⟨by norm_num, by norm_num⟩,
    top_edge_resolves_last_segment 2 100 (3/5) (2/5) (by norm_num) (by norm_num)⟩

/-- C3: for a fixed segment plan (any `beatCount ≥ 0`,
`totalFrames ≥ totalSegments`, nonnegative frame allocations as in the
source constants) and any `s1 ≤ s2` in `[0,1]`, the resolved frame index at
`s1` never exceeds the one at `s2`: resolution is monotone, with no backward
jump across segment boundaries or at the final clamped segment. -/
theorem frame_resolution_monotone (B N : ℕ) (Fa Fs : ℚ)
    (hN : 2 * B + 1 ≤ N) (hFa : 0 ≤ Fa) (hFs : 0 ≤ Fs)
    {s1 s2 : ℚ} (h0 : 0 ≤ s1) (h12 : s1 ≤ s2) (h2 : s2 ≤ 1) :
    resolveFrameIndex N (buildSegments B N Fa Fs) s1 ≤
      resolveFrameIndex N (buildSegments B N Fa Fs) s2 := by
  have hnq : (0 : ℚ) < ((2 * B + 1 : ℕ) : ℚ) := by positivity
  rcases lt_or_ge s2 1 with hs2 | hs2
  · have hs1 : s1 < 1 := lt_of_le_of_lt h12 hs2
    have h0' : 0 ≤ s2 := h0.trans h12
    rw [resolveFrameIndex_of_lt B N Fa Fs h0 hs1,
      resolveFrameIndex_of_lt B N Fa Fs h0' hs2]
    refine frameIndexOf_segAt_mono B N hFa hFs ?_ (floor_toNat_le B h0' hs2)
      (floor_toNat_le_mul B h0) (mul_le_floor_toNat_add_one B h0)
      (floor_toNat_le_mul B h0') (mul_le_floor_toNat_add_one B h0') h12
    exact Int.toNat_le_toNat (Int.floor_le_floor
      (mul_le_mul_of_nonneg_right h12 hnq.le))
  · have hs2' : s2 = 1 := le_antisymm h2 hs2
    rcases lt_or_ge s1 1 with hs1 | hs1
    · rw [resolveFrameIndex_of_lt B N Fa Fs h0 hs1,
        resolveFrameIndex_of_ge B N Fa Fs hs2]
      refine frameIndexOf_segAt_mono B N hFa hFs (floor_toNat_le B h0 hs1)
        le_rfl (floor_toNat_le_mul B h0) (mul_le_floor_toNat_add_one B h0)
        ?_ ?_ h12
      · rw [hs2', one_mul]
        push_cast
        linarith
      · rw [hs2', one_mul]
        push_cast
        linarith
    · have hs1' : s1 = 1 := le_antisymm (h12.trans h2) hs1
      rw [hs1', hs2']

/-- Witness for C3: at `beatCount = 2`, `totalFrames = 100`, the resolved
index at `1/4` does not exceed the one at `3/4`. -/
theorem frame_resolution_monotone_witness :
    (2 * 2 + 1 ≤ 100 ∧ (0 : ℚ) ≤ 3/5 ∧ (0 : ℚ) ≤ 2/5 ∧ (0 : ℚ) ≤ 1/4 ∧
      (1/4 : ℚ) ≤ 3/4 ∧ (3/4 : ℚ) ≤ 1) ∧
    resolveFrameIndex 100 (buildSegments 2 100 (3/5) (2/5)) (1/4) ≤
      resolveFrameIndex 100 (buildSegments 2 100 (3/5) (2/5)) (3/4) :=
  ⟨⟨by norm_num, by norm_num, by norm_num, by norm_num, by norm_num,
      by norm_num⟩,
    frame_resolution_monotone 2 100 (3/5) (2/5) (by norm_num) (by norm_num)
      (by norm_num) (by norm_num) (by norm_num) (by norm_num)⟩

/-- Odd entries of `range (2B+1)`, halved, enumerate `0 … B-1`. -/
lemma range_odd_halves (B : ℕ) :
    ((List.range (2 * B + 1)).filter (fun j => decide (j % 2 = 1))).map
      (fun j => j / 2) = List.range B := by
  induction B with
  | zero => rfl
  | succ B ih =>
    rw [show 2 * (B + 1) + 1 = (2 * B + 1) + 1 + 1 from by omega,
      List.range_succ, List.range_succ, List.filter_append, List.filter_append,
      List.map_append, List.map_append, ih]
    have hodd : (2 * B + 1) % 2 = 1 := by omega
    have heven : ¬ ((2 * B + 1 + 1) % 2 = 1) := by omega
    have hhalf : (2 * B + 1) / 2 = B := by omega
    simp [hodd, heven, hhalf]
    rw [List.range_succ]

/-- C5: segments strictly alternate kinds starting (and, the count being
odd, ending) with fast — even ordinals fast, odd ordinals slow — each slow
segment carries `beatIndex = ⌊ordinal/2⌋`, `beatIndex` is present iff the
kind is slow, and the slow segments' beat indices in order are exactly
`0, 1, …, beatCount - 1`. -/
theorem segments_alternate_with_beats (B N : ℕ) (Fa Fs : ℚ) :
    (buildSegments B N Fa Fs).length = 2 * B + 1 ∧
    (buildSegments B N Fa Fs).map Segment.kind =
      (List.range (2 * B + 1)).map
        (fun j => if j % 2 = 1 then SegKind.slow else SegKind.fast) ∧
    (buildSegments B N Fa Fs).map Segment.serviceIndex =
      (List.range (2 * B + 1)).map
        (fun j => if j % 2 = 1 then some (j / 2) else none) ∧
    ((buildSegments B N Fa Fs).filter
        (fun seg => decide (seg.kind = SegKind.slow))).map Segment.serviceIndex
      = (List.range B).map some := by
  refine ⟨?_, ?_, ?_, ?_⟩
  · rw [buildSegments_eq_map, List.length_map, List.length_range]
  · rw [buildSegments_eq_map, List.map_map]
    exact List.map_congr_left fun j _ => segAt_kind B N Fa Fs j
  · rw [buildSegments_eq_map, List.map_map]
    exact List.map_congr_left fun j _ => segAt_serviceIndex B N Fa Fs j
  · have hfc : ∀ j ∈ List.range (2 * B + 1),
        ((fun seg => decide (seg.kind = SegKind.slow)) ∘ segAt B N Fa Fs) j =
          (fun j => decide (j % 2 = 1)) j := by
      intro j _
      simp only [Function.comp_apply, segAt_kind]
      by_cases h : j % 2 = 1
      · simp [h]
      · simp [h]
    rw [buildSegments_eq_map, List.filter_map, List.filter_congr hfc,
      ← range_odd_halves B]
    conv_lhs => rw [List.map_map]
    conv_rhs => rw [List.map_map]
    refine List.map_congr_left ?_
    intro j hj
    have hodd : j % 2 = 1 := by
      have := (List.mem_filter.mp hj).2
      simpa using this
    simp only [Function.comp_apply, segAt_serviceIndex, if_pos hodd]

lemma findSegment_isSome {l : List Segment} (hl : l ≠ []) (s : ℚ) :
    (findSegment l s).isSome = true := by
  simp only [findSegment]
  cases h : l.find? (fun seg => segMatches seg s) with
  | some seg => rfl
  | none => simp [h, List.getLast?_isSome, hl]

lemma resolveFrameIndex_bounds (N : ℕ) {l : List Segment} (hl : l ≠ [])
    (hN : 1 ≤ N) (s : ℚ) :
    0 ≤ resolveFrameIndex N l s ∧ resolveFrameIndex N l s ≤ (N : ℤ) - 1 := by
  have hN1 : (0 : ℤ) ≤ (N : ℤ) - 1 := by
    have : (1 : ℤ) ≤ (N : ℤ) := by exact_mod_cast hN
    omega
  have hsome := findSegment_isSome hl s
  cases h : findSegment l s with
  | none => rw [h] at hsome; simp at hsome
  | some seg =>
    simp only [resolveFrameIndex, h, frameIndexOf]
    exact ⟨le_min (le_max_left 0 _) hN1, min_le_right _ _⟩

/-- C10, implicit: per-update resolution is total over every rational
scroll input, in or out of `[0,1]`: the lookup always yields a segment
(falling back to the last), every segment of the plan has strictly positive
scroll width (the local-progress division never divides by zero), and the
returned frame index always lies in `[0, totalFrames - 1]`. -/
theorem resolution_total_every_input (B N : ℕ) (Fa Fs : ℚ) (hN : 1 ≤ N)
    (s : ℚ) :
    (findSegment (buildSegments B N Fa Fs) s).isSome = true ∧
    (buildSegments B N Fa Fs).all
      (fun seg => decide (seg.startProgress < seg.endProgress)) = true ∧
    0 ≤ resolveFrameIndex N (buildSegments B N Fa Fs) s ∧
    resolveFrameIndex N (buildSegments B N Fa Fs) s ≤ (N : ℤ) - 1 := by
  obtain ⟨hlo, hhi⟩ :=
    resolveFrameIndex_bounds N (buildSegments_ne_nil B N Fa Fs) hN s
  refine ⟨findSegment_isSome (buildSegments_ne_nil B N Fa Fs) s, ?_, hlo, hhi⟩
  rw [buildSegments_eq_map, List.all_eq_true]
  intro x hx
  obtain ⟨j, hj, rfl⟩ := List.mem_map.mp hx
  have hnq : (0 : ℚ) < ((2 * B + 1 : ℕ) : ℚ) := by positivity
  simp only [decide_eq_true_eq, segAt_startProgress, segAt_endProgress]
  rw [div_lt_div_iff_of_pos_right hnq]
  linarith

/-- Witness for C10 at a scroll input strictly outside `[0,1]`. -/
theorem resolution_total_every_input_witness :
    1 ≤ 100 ∧
    ((findSegment (buildSegments 2 100 (3/5) (2/5)) (7/3)).isSome = true ∧
      (buildSegments 2 100 (3/5) (2/5)).all
        (fun seg => decide (seg.startProgress < seg.endProgress)) = true ∧
      0 ≤ resolveFrameIndex 100 (buildSegments 2 100 (3/5) (2/5)) (7/3) ∧
      resolveFrameIndex 100 (buildSegments 2 100 (3/5) (2/5)) (7/3) ≤
        (100 : ℤ) - 1) :=
  ⟨by norm_num,
    resolution_total_every_input 2 100 (3/5) (2/5) (by norm_num) (7/3)⟩

/-- C4 counterexample: in the worked example (`beatCount = 2`,
`totalFrames = 100`, allocations `0.6`/`0.4`), the scroll value `0.5` is the
midpoint of segment 2 — which starts at scroll `0.4`, not `0.5` — so the
resolved frame index there is not approximately `40`: it lies in `[49, 50]`
(`50` in exact arithmetic; the source's double arithmetic lands on `49`,
`Math.floor(40 + 0.4999999999999997 · 20)`, one ulp below). -/
theorem example_plan_midpoint_counterexample :
    ¬ (resolveFrameIndex 100 (buildSegments 2 100 (3/5) (2/5)) (1/2) = 40) ∧
    49 ≤ resolveFrameIndex 100 (buildSegments 2 100 (3/5) (2/5)) (1/2) ∧
    resolveFrameIndex 100 (buildSegments 2 100 (3/5) (2/5)) (1/2) ≤ 50 := by
  have h : resolveFrameIndex 100 (buildSegments 2 100 (3/5) (2/5)) (1/2) = 50 := by
    norm_num [buildSegments, segLoop, clampLast, resolveFrameIndex,
      findSegment, segMatches, frameIndexOf]
  rw [h]
  exact ⟨by decide, by decide, by decide⟩

/-- C4 amended: with `beatCount = 2`, `totalFrames = 100`,
`Ffast = 0.6`, `Fslow = 0.4`, the plan has 5 segments of scroll width `0.2`
each, fast and slow frame spans are both `20`, and segment index 2 is fast
and spans frames `[40, 60)` before clamping; but segment index 2 starts at
`scrollProgress = 0.4`, not `0.5`: the resolved frame index is `40` at
`scrollProgress = 0.4` (the actual segment start), while at
`scrollProgress = 0.5` (the segment's midpoint) it lies in `[49, 50]`
(`50` in exact arithmetic, `49` in the source's double arithmetic), not
approximately `40`. -/
theorem example_plan_walkthrough_amended :
    (buildSegments 2 100 (3/5) (2/5)).length = 5 ∧
    (buildSegments 2 100 (3/5) (2/5)).all
      (fun seg => decide (seg.endProgress - seg.startProgress = 1/5)) = true ∧
    fpfOf 2 100 (3/5) = 20 ∧
    fpsOf 2 100 (2/5) = 20 ∧
    (buildSegments 2 100 (3/5) (2/5))[2]? = some
      { kind := .fast, startProgress := 2/5, endProgress := 3/5,
        startFrame := 40, endFrame := 60, serviceIndex := none } ∧
    resolveFrameIndex 100 (buildSegments 2 100 (3/5) (2/5)) (2/5) = 40 ∧
    (49 ≤ resolveFrameIndex 100 (buildSegments 2 100 (3/5) (2/5)) (1/2) ∧
      resolveFrameIndex 100 (buildSegments 2 100 (3/5) (2/5)) (1/2) ≤ 50) := by
  refine ⟨?_, ?_, ?_, ?_, ?_, ?_, ?_, ?_⟩ <;>
    norm_num [buildSegments, segLoop, clampLast, resolveFrameIndex,
      findSegment, segMatches, frameIndexOf, fpfOf, fpsOf]

/-! ## Frame preloader (`usePreload`, generation-guarded variant)

The hook is embedded as a small-step machine over events: `call` is an
invocation of `preloadFrames`, `fetchDone g i ok` is the firing of the
`onload` (`ok = true`) or `onerror` (`ok = false`) handler of fetch `i` of
the call with generation `g`.  Handlers run atomically on the single UI
thread; the `await Promise.all` continuation runs with the handler that
settles the last promise.  A promise settles at most once. -/

/-- An image handle, identified by the address it was fetched from. -/
structure Image where
  src : String
deriving DecidableEq, Repr

/-- `String(index + 1).padStart(padLength, '0')`. -/
def padStartZeros (s : String) (len : ℕ) : String :=
  String.mk (List.replicate (len - s.length) '0') ++ s

/-- `img.src` of fetch `index`:
`{basePath}/frame_{index+1 zero-padded to padLength}.webp`. -/
def frameSrc (basePath : String) (padLength index : ℕ) : String :=
  basePath ++ "/frame_" ++ padStartZeros (toString (index + 1)) padLength
    ++ ".webp"

/-- The `onerror` rejection message: `Failed to load frame: {img.src}`. -/
def failMsg (src : String) : String := "Failed to load frame: " ++ src

/-- `Math.round((loadedCount / count) * 100)` — round half away from zero on
nonnegative input is `⌊x + 1/2⌋`. -/
def progressOf (loadedCount count : ℕ) : ℤ :=
  ⌊(loadedCount : ℚ) / (count : ℚ) * 100 + 1/2⌋

deriving instance DecidableEq for Except

/-- Local state of one `preloadFrames` call: its generation tag, arguments,
the `loadedCount` counter, the `loadedImages` array (holes are `none`), the
settlement state of each fetch promise (`none` pending, `some true`
resolved, `some false` rejected) and the call's overall outcome once
`Promise.all` settles. -/
structure LoadState where
  gen : ℕ
  basePath : String
  count : ℕ
  padLength : ℕ
  loadedCount : ℕ
  slots : List (Option Image)
  settled : List (Option Bool)
  result : Option (Except String (List (Option Image)))
deriving DecidableEq, Repr

/-- The published React state: `images`, `progress`, `isLoaded`. -/
structure Published where
  images : List (Option Image)
  progress : ℤ
  isLoaded : Bool
deriving DecidableEq, Repr

/-- Hook state: published state, the generation counter (`generationRef`)
and the local state of every call made so far. -/
structure SysState where
  pub : Published
  generation : ℕ
  loads : List LoadState
deriving DecidableEq, Repr

inductive PreloadEvent where
  | call (basePath : String) (count padLength : ℕ)
  | fetchDone (gen index : ℕ) (ok : Bool)
deriving DecidableEq, Repr

/-- State of a fresh call: `loadedCount = 0`, `new Array(count)` (all
holes), all fetches pending. -/
def initLoad (g : ℕ) (basePath : String) (count padLength : ℕ) : LoadState :=
  { gen := g, basePath := basePath, count := count, padLength := padLength,
    loadedCount := 0, slots := List.replicate count none,
    settled := List.replicate count none, result := none }

/-- The `await Promise.all` continuation: once every fetch has resolved (and
none rejected), record the successful outcome, and publish images and the
ready flag only if the call is still the current generation. -/
def finishLoad (generation : ℕ) (pub : Published) (L : LoadState) :
    Published × LoadState :=
  if L.result = none ∧ L.settled.all (fun o => decide (o = some true)) then
    let L' := { L with result := some (.ok L.slots) }
    if generation = L.gen then
      ({ pub with images := L.slots, isLoaded := true }, L')
    else (pub, L')
  else (pub, L)

/-- The handler of fetch `i` of call `L`.  `onload` (when the generation is
still current) bumps `loadedCount`, republishes the rounded progress
percentage and stores the image at its index; a stale `onload` only resolves
its promise.  `onerror` rejects with the failed address; `Promise.all`
rejects with the first rejection. -/
def applyDone (generation : ℕ) (pub : Published) (L : LoadState)
    (i : ℕ) (ok : Bool) : Published × LoadState :=
  if L.settled[i]? = some none then
    if ok then
      if generation = L.gen then
        let lc := L.loadedCount + 1
        let L' := { L with
          loadedCount := lc,
          slots := L.slots.set i (some ⟨frameSrc L.basePath L.padLength i⟩),
          settled := L.settled.set i (some true) }
        finishLoad generation { pub with progress := progressOf lc L.count } L'
      else
        finishLoad generation pub
          { L with settled := L.settled.set i (some true) }
    else
      (pub, { L with
        settled := L.settled.set i (some false),
        result := if L.result = none
          then some (.error (failMsg (frameSrc L.basePath L.padLength i)))
          else L.result })
  else (pub, L)

/-- One step of the hook.  `call` bumps the generation, synchronously resets
the published state to `([], 0, false)` and registers the new load;
`fetchDone` dispatches to the matching call's handler. -/
def preloadStep (s : SysState) (e : PreloadEvent) : SysState :=
  match e with
  | .call basePath count padLength =>
    { pub := { images := [], progress := 0, isLoaded := false },
      generation := s.generation + 1,
      loads := s.loads ++ [initLoad (s.generation + 1) basePath count padLength] }
  | .fetchDone g i ok =>
    match s.loads.find? (fun L => decide (L.gen = g)) with
    | none => s
    | some L =>
      { pub := (applyDone s.generation s.pub L i ok).1,
        generation := s.generation,
        loads := s.loads.map
          (fun M => if M.gen = g then (applyDone s.generation s.pub L i ok).2
            else M) }

/-- Initial hook state. -/
def initPreload : SysState :=
  { pub := { images := [], progress := 0, isLoaded := false },
    generation := 0, loads := [] }

/-- Run a sequence of events from the initial state. -/
def runPreload (events : List PreloadEvent) : SysState :=
  events.foldl preloadStep initPreload

/-! ## Single-call characterization

`midState b c p done` is the hook state after one `preloadFrames(b, c, p)`
call whose fetch completions so far are `done` (in completion order, each
index at most once). -/

/-- Indices whose fetch has resolved, in completion order. -/
def okIdx (done : List (ℕ × Bool)) : List ℕ :=
  (done.filter (fun e => e.2)).map (fun e => e.1)

/-- Indices whose fetch has rejected, in completion order. -/
def errIdx (done : List (ℕ × Bool)) : List ℕ :=
  (done.filter (fun e => !e.2)).map (fun e => e.1)

/-- The `loadedImages` array: slot `j` holds the image fetched from frame
`j`'s address iff fetch `j` has resolved. -/
def doneSlots (b : String) (c p : ℕ) (done : List (ℕ × Bool)) :
    List (Option Image) :=
  (List.range c).map (fun j =>
    if j ∈ okIdx done then some ⟨frameSrc b p j⟩ else none)

/-- Settlement state of each fetch promise. -/
def doneSettled (c : ℕ) (done : List (ℕ × Bool)) : List (Option Bool) :=
  (List.range c).map (fun j =>
    if j ∈ okIdx done then some true
    else if j ∈ errIdx done then some false else none)

/-- Whether every fetch of the call has resolved. -/
def doneComplete (c : ℕ) (done : List (ℕ × Bool)) : Bool :=
  (List.range c).all (fun j => decide (j ∈ okIdx done))

/-- The call's outcome: rejected with the first rejection if any, resolved
with the full slot array once every fetch resolved, otherwise pending. -/
def doneResult (b : String) (c p : ℕ) (done : List (ℕ × Bool)) :
    Option (Except String (List (Option Image))) :=
  match (errIdx done).head? with
  | some j => some (.error (failMsg (frameSrc b p j)))
  | none => if doneComplete c done then some (.ok (doneSlots b c p done))
            else none

/-- Hook state after `call b c p` and the completions `done`. -/
def midState (b : String) (c p : ℕ) (done : List (ℕ × Bool)) : SysState :=
  { pub := { images := if errIdx done = [] ∧ doneComplete c done = true
               then doneSlots b c p done else [],
             progress := progressOf (okIdx done).length c,
             isLoaded := decide (errIdx done = []) && doneComplete c done },
    generation := 1,
    loads := [{ gen := 1, basePath := b, count := c, padLength := p,
                loadedCount := (okIdx done).length,
                slots := doneSlots b c p done,
                settled := doneSettled c done,
                result := doneResult b c p done }] }

lemma okIdx_append_ok (done : List (ℕ × Bool)) (i : ℕ) :
    okIdx (done ++ [(i, true)]) = okIdx done ++ [i] := by
  simp [okIdx, List.filter_append]

lemma okIdx_append_err (done : List (ℕ × Bool)) (i : ℕ) :
    okIdx (done ++ [(i, false)]) = okIdx done := by
  simp [okIdx, List.filter_append]

lemma errIdx_append_ok (done : List (ℕ × Bool)) (i : ℕ) :
    errIdx (done ++ [(i, true)]) = errIdx done := by
  simp [errIdx, List.filter_append]

lemma errIdx_append_err (done : List (ℕ × Bool)) (i : ℕ) :
    errIdx (done ++ [(i, false)]) = errIdx done ++ [i] := by
  simp [errIdx, List.filter_append]

lemma okIdx_subset_fst {done : List (ℕ × Bool)} {j : ℕ}
    (h : j ∈ okIdx done) : j ∈ done.map (fun e => e.1) := by
  obtain ⟨e, he, rfl⟩ := List.mem_map.mp h
  exact List.mem_map.mpr ⟨e, (List.mem_filter.mp he).1, rfl⟩

lemma errIdx_subset_fst {done : List (ℕ × Bool)} {j : ℕ}
    (h : j ∈ errIdx done) : j ∈ done.map (fun e => e.1) := by
  obtain ⟨e, he, rfl⟩ := List.mem_map.mp h
  exact List.mem_map.mpr ⟨e, (List.mem_filter.mp he).1, rfl⟩

lemma getElem?_map_range {α : Type} (f : ℕ → α) (c n : ℕ) :
    ((List.range c).map f)[n]? = if n < c then some (f n) else none := by
  by_cases h : n < c
  · rw [List.getElem?_map, List.getElem?_range h, if_pos h]
    rfl
  · rw [if_neg h, List.getElem?_eq_none]
    simpa [List.length_map, List.length_range] using Nat.le_of_not_lt h

lemma doneSettled_getElem {c i : ℕ} (done : List (ℕ × Bool)) (hi : i < c) :
    (doneSettled c done)[i]? = some (if i ∈ okIdx done then some true
      else if i ∈ errIdx done then some false else none) := by
  rw [doneSettled, getElem?_map_range, if_pos hi]

lemma doneSettled_all (c : ℕ) (done : List (ℕ × Bool)) :
    (doneSettled c done).all (fun o => decide (o = some true)) =
      doneComplete c done := by
  rw [doneComplete]
  refine Bool.eq_iff_iff.mpr ?_
  rw [List.all_eq_true, List.all_eq_true]
  constructor
  · intro h j hj
    have := h _ (List.mem_map.mpr ⟨j, hj, rfl⟩)
    by_cases hok : j ∈ okIdx done
    · simpa [hok] using decide_eq_true_eq.mpr hok
    · by_cases herr : j ∈ errIdx done <;> simp [hok, herr] at this
  · intro h o ho
    obtain ⟨j, hj, rfl⟩ := List.mem_map.mp ho
    have hok := decide_eq_true_eq.mp (h j hj)
    simp [hok]

lemma doneComplete_false_of_pending {c i : ℕ} {done : List (ℕ × Bool)}
    (hi : i < c) (hpend : i ∉ okIdx done) : doneComplete c done = false := by
  cases hx : doneComplete c done with
  | false => rfl
  | true =>
    rw [doneComplete, List.all_eq_true] at hx
    exact absurd (decide_eq_true_eq.mp (hx i (List.mem_range.mpr hi))) hpend

lemma progressOf_zero (c : ℕ) : progressOf 0 c = 0 := by
  norm_num [progressOf]

lemma doneSlots_nil (b : String) (c p : ℕ) :
    doneSlots b c p [] = List.replicate c none := by
  refine List.ext_getElem? fun n => ?_
  rw [doneSlots, getElem?_map_range, List.getElem?_replicate]
  by_cases h : n < c <;> simp [h, okIdx]

lemma doneSettled_nil (c : ℕ) :
    doneSettled c [] = List.replicate c none := by
  refine List.ext_getElem? fun n => ?_
  rw [doneSettled, getElem?_map_range, List.getElem?_replicate]
  by_cases h : n < c <;> simp [h, okIdx, errIdx]

/-- The `call` event produces exactly the empty-completions mid-state. -/
lemma preloadStep_call_init (b : String) (c p : ℕ) (hc : 1 ≤ c) :
    preloadStep initPreload (.call b c p) = midState b c p [] := by
  have hcomp : doneComplete c [] = false :=
    doneComplete_false_of_pending (i := 0) hc (by simp [okIdx])
  rw [preloadStep, initPreload, midState, initLoad]
  simp [doneSlots_nil, doneSettled_nil, doneResult, hcomp, progressOf_zero,
    okIdx, errIdx]

lemma doneSlots_set_ok (b : String) (c p : ℕ) (done : List (ℕ × Bool))
    {i : ℕ} (hi : i < c) :
    (doneSlots b c p done).set i (some ⟨frameSrc b p i⟩) =
      doneSlots b c p (done ++ [(i, true)]) := by
  refine List.ext_getElem? fun n => ?_
  simp only [List.getElem?_set, doneSlots, getElem?_map_range,
    okIdx_append_ok, List.length_map, List.length_range]
  by_cases hin : i = n
  · subst hin
    simp [hi, List.mem_append]
  · by_cases hn : n < c
    · simp [hin, hn, List.mem_append, Ne.symm hin]
    · simp [hin, hn]

lemma doneSlots_append_err (b : String) (c p : ℕ) (done : List (ℕ × Bool))
    (i : ℕ) :
    doneSlots b c p (done ++ [(i, false)]) = doneSlots b c p done := by
  simp [doneSlots, okIdx_append_err]

lemma doneSettled_set_ok (c : ℕ) (done : List (ℕ × Bool)) {i : ℕ}
    (hi : i < c) :
    (doneSettled c done).set i (some true) =
      doneSettled c (done ++ [(i, true)]) := by
  refine List.ext_getElem? fun n => ?_
  simp only [List.getElem?_set, doneSettled, getElem?_map_range,
    okIdx_append_ok, errIdx_append_ok, List.length_map, List.length_range]
  by_cases hin : i = n
  · subst hin
    simp [hi, List.mem_append]
  · by_cases hn : n < c
    · simp [hin, hn, List.mem_append, Ne.symm hin]
    · simp [hin, hn]

lemma doneSettled_set_err (c : ℕ) (done : List (ℕ × Bool)) {i : ℕ}
    (hi : i < c) (hpendok : i ∉ okIdx done) :
    (doneSettled c done).set i (some false) =
      doneSettled c (done ++ [(i, false)]) := by
  refine List.ext_getElem? fun n => ?_
  simp only [List.getElem?_set, doneSettled, getElem?_map_range,
    okIdx_append_err, errIdx_append_err, List.length_map, List.length_range]
  by_cases hin : i = n
  · subst hin
    simp [hi, List.mem_append, hpendok]
  · by_cases hn : n < c
    · simp [hin, hn, List.mem_append, Ne.symm hin]
    · simp [hin, hn]

/-- Dispatch of a completion event when a single matching load exists. -/
lemma preloadStep_fetchDone_eq (s : SysState) (g i : ℕ) (ok : Bool)
    (L : LoadState) (hL : s.loads = [L]) (hg : L.gen = g) :
    preloadStep s (.fetchDone g i ok) =
      { pub := (applyDone s.generation s.pub L i ok).1,
        generation := s.generation,
        loads := [(applyDone s.generation s.pub L i ok).2] } := by
  simp only [preloadStep, hL]
  rw [List.find?_cons_of_pos _ (by simp [hg])]
  simp [hg]

/-- A fresh fetch completion advances the mid-state by one completion
record. -/
lemma preloadStep_fetchDone_mid (b : String) (c p : ℕ)
    (done : List (ℕ × Bool)) (i : ℕ) (ok : Bool)
    (hi : i < c) (hnew : i ∉ done.map (fun e => e.1)) :
    preloadStep (midState b c p done) (.fetchDone 1 i ok) =
      midState b c p (done ++ [(i, ok)]) := by
  have hpendok : i ∉ okIdx done := fun h => hnew (okIdx_subset_fst h)
  have hpenderr : i ∉ errIdx done := fun h => hnew (errIdx_subset_fst h)
  have hcomp : doneComplete c done = false :=
    doneComplete_false_of_pending hi hpendok
  rw [preloadStep_fetchDone_eq (midState b c p done) 1 i ok _ rfl rfl]
  simp only [midState, applyDone, doneSettled_getElem done hi,
    if_neg hpendok, if_neg hpenderr, if_pos rfl]
  cases ok with
  | true =>
    simp only [if_true, if_pos rfl, doneSlots_set_ok b c p done hi,
      doneSettled_set_ok c done hi, finishLoad, doneSettled_all,
      okIdx_append_ok, errIdx_append_ok, List.length_append,
      List.length_singleton]
    rcases herr : errIdx done with _ | ⟨j, tl⟩
    · have hres : doneResult b c p done = none := by
        simp [doneResult, herr, hcomp]
      cases hcomp' : doneComplete c (done ++ [(i, true)]) with
      | false =>
        simp only [hres, hcomp', and_false, if_false, true_and]
        simp [midState, doneResult, herr, hcomp, hcomp', errIdx_append_ok,
          okIdx_append_ok]
      | true =>
        simp only [hres, hcomp', and_true, true_and, if_true, if_pos rfl]
        simp [midState, doneResult, herr, hcomp', errIdx_append_ok,
          okIdx_append_ok]
    · have hres : doneResult b c p done =
          some (.error (failMsg (frameSrc b p j))) := by
        simp [doneResult, herr]
      simp [midState, hres, doneResult, herr, hcomp, errIdx_append_ok,
        okIdx_append_ok]
  | false =>
    simp only [if_false, doneSettled_set_err c done hi hpendok]
    rcases herr : errIdx done with _ | ⟨j, tl⟩
    · have hres : doneResult b c p done = none := by
        simp [doneResult, herr, hcomp]
      simp [midState, hres, doneResult, herr, hcomp, errIdx_append_err,
        okIdx_append_err, doneSlots_append_err,
        doneComplete_false_of_pending hi hpendok]
    · have hres : doneResult b c p done =
          some (.error (failMsg (frameSrc b p j))) := by
        simp [doneResult, herr]
      simp [midState, hres, doneResult, herr, errIdx_append_err,
        okIdx_append_err, doneSlots_append_err, hcomp]

lemma okIdx_append (l1 l2 : List (ℕ × Bool)) :
    okIdx (l1 ++ l2) = okIdx l1 ++ okIdx l2 := by
  simp [okIdx, List.filter_append]

lemma errIdx_append (l1 l2 : List (ℕ × Bool)) :
    errIdx (l1 ++ l2) = errIdx l1 ++ errIdx l2 := by
  simp [errIdx, List.filter_append]

/-- Folding fresh completions over the mid-state appends them. -/
lemma foldl_fetchDone_mid (b : String) (c p : ℕ) :
    ∀ (todo done : List (ℕ × Bool)),
      (∀ e ∈ todo, e.1 < c) →
      (done.map (fun e => e.1) ++ todo.map (fun e => e.1)).Nodup →
      List.foldl preloadStep (midState b c p done)
        (todo.map (fun e => PreloadEvent.fetchDone 1 e.1 e.2)) =
        midState b c p (done ++ todo) := by
  intro todo
  induction todo with
  | nil => intro done _ _; simp
  | cons e t ih =>
    intro done hlt hnd
    rw [List.map_cons, List.foldl_cons]
    have hi : e.1 < c := hlt e (List.mem_cons_self e t)
    have hnew : e.1 ∉ done.map (fun x => x.1) := by
      have hdisj := List.disjoint_of_nodup_append hnd
      exact fun h => hdisj h (by simp)
    rw [preloadStep_fetchDone_mid b c p done e.1 e.2 hi hnew]
    have hstep := ih (done ++ [(e.1, e.2)])
      (fun x hx => hlt x (List.mem_cons_of_mem e hx))
      (by simpa [List.append_assoc] using hnd)
    rw [hstep, List.append_assoc]
    simp

/-- A single `preloadFrames` call followed by distinct in-range completions
lands exactly on the mid-state. -/
lemma runPreload_single (b : String) (c p : ℕ) (hc : 1 ≤ c)
    (done : List (ℕ × Bool)) (hlt : ∀ e ∈ done, e.1 < c)
    (hnd : (done.map (fun e => e.1)).Nodup) :
    runPreload (.call b c p :: done.map (fun e => .fetchDone 1 e.1 e.2)) =
      midState b c p done := by
  rw [runPreload, List.foldl_cons, preloadStep_call_init b c p hc]
  simpa using foldl_fetchDone_mid b c p done [] hlt (by simpa using hnd)

/-! ## Claim theorems: preloader -/

lemma applyDone_stale_pub {generation : ℕ} {pub : Published} {L : LoadState}
    {i : ℕ} {ok : Bool} (hg : generation ≠ L.gen) :
    (applyDone generation pub L i ok).1 = pub := by
  unfold applyDone finishLoad
  split_ifs <;> first
    | rfl
    | exact absurd (by assumption) hg

lemma applyDone_stale_load {generation : ℕ} {pub : Published} {L : LoadState}
    {i : ℕ} {ok : Bool} (hg : generation ≠ L.gen)
    (hpend : L.settled[i]? = some none) :
    (applyDone generation pub L i ok).2.settled = L.settled.set i (some ok) ∧
    (applyDone generation pub L i ok).2.gen = L.gen := by
  unfold applyDone finishLoad
  rw [if_pos hpend]
  cases ok with
  | true =>
    rw [if_pos rfl, if_neg hg]
    split_ifs <;> exact ⟨rfl, rfl⟩
  | false =>
    rw [if_neg (by simp)]
    exact ⟨rfl, rfl⟩

/-- Replacing the found load keeps it the first match. -/
lemma find?_replace_gen (loads : List LoadState) (g : ℕ) (L L' : LoadState)
    (hfind : loads.find? (fun M => decide (M.gen = g)) = some L)
    (hL' : L'.gen = g) :
    (loads.map (fun M => if M.gen = g then L' else M)).find?
      (fun M => decide (M.gen = g)) = some L' := by
  induction loads with
  | nil => simp at hfind
  | cons a t ih =>
    rw [List.map_cons]
    by_cases h : a.gen = g
    · rw [if_pos h]
      exact List.find?_cons_of_pos _ (by simp [hL'])
    · rw [if_neg h, List.find?_cons_of_neg _ (by simp [h])]
      rw [List.find?_cons_of_neg _ (by simp [h])] at hfind
      exact ih hfind

/-- C6: a fetch completion belonging to a generation other than the
current one mutates nothing published — images, progress and the ready flag
are all unchanged, as is the generation counter — while the superseded
call's fetch promise still settles normally (its settlement slot is
recorded). -/
theorem stale_fetch_never_mutates_published (s : SysState) (g i : ℕ)
    (ok : Bool) (L : LoadState) (hg : g ≠ s.generation)
    (hfind : s.loads.find? (fun M => decide (M.gen = g)) = some L)
    (hpend : L.settled[i]? = some none) :
    (preloadStep s (.fetchDone g i ok)).pub = s.pub ∧
    (preloadStep s (.fetchDone g i ok)).generation = s.generation ∧
    ((preloadStep s (.fetchDone g i ok)).loads.find?
        (fun M => decide (M.gen = g))).map (fun M => M.settled) =
      some (L.settled.set i (some ok)) := by
  have hgL : L.gen = g := by
    have := List.find?_some hfind
    simpa using this
  have hg' : s.generation ≠ L.gen := fun h => hg (by rw [hgL] at h; exact h.symm)
  simp only [preloadStep, hfind]
  obtain ⟨hset, hgen⟩ := applyDone_stale_load hg' hpend
  refine ⟨applyDone_stale_pub hg', by trivial, ?_⟩
  rw [find?_replace_gen s.loads g L _ hfind (by rw [hgen, hgL]),
    Option.map_some', hset]

/-- Witness for C6: a second call supersedes the first; a completion of the
first call settles its promise but publishes nothing. -/
theorem stale_fetch_never_mutates_published_witness :
    ((1 : ℕ) ≠ 2 ∧
      ([initLoad 1 "a" 2 4].find? (fun M => decide (M.gen = 1)) =
        some (initLoad 1 "a" 2 4)) ∧
      (initLoad 1 "a" 2 4).settled[0]? = some none) ∧
    ((preloadStep ⟨⟨[], 0, false⟩, 2, [initLoad 1 "a" 2 4]⟩
        (.fetchDone 1 0 true)).pub = ⟨[], 0, false⟩ ∧
      (preloadStep ⟨⟨[], 0, false⟩, 2, [initLoad 1 "a" 2 4]⟩
        (.fetchDone 1 0 true)).generation = 2 ∧
      ((preloadStep ⟨⟨[], 0, false⟩, 2, [initLoad 1 "a" 2 4]⟩
          (.fetchDone 1 0 true)).loads.find?
          (fun M => decide (M.gen = 1))).map (fun M => M.settled) =
        some ((initLoad 1 "a" 2 4).settled.set 0 (some true))) :=
  ⟨⟨by decide, by decide, by decide⟩,
    stale_fetch_never_mutates_published ⟨⟨[], 0, false⟩, 2, [initLoad 1 "a" 2 4]⟩
      1 0 true (initLoad 1 "a" 2 4) (by decide) (by decide) (by decide)⟩

/-- C7: a single uninterrupted call in which every fetch succeeds, in
any completion order, resolves to exactly `count` non-null image handles,
the handle at index `i` being the image fetched from
`{basePath}/frame_{i+1 zero-padded}.webp` — assignment is index-addressed,
not append-ordered. -/
theorem preload_resolves_indexed_collection (b : String) (c p : ℕ)
    (hc : 1 ≤ c) (hp : 1 ≤ p) (order : List ℕ)
    (hperm : order.Perm (List.range c)) :
    (runPreload (.call b c p ::
        order.map (fun i => .fetchDone 1 i true))).loads.map
      (fun L => L.result) =
      [some (Except.ok ((List.range c).map
        (fun i => some (Image.mk (frameSrc b p i)))))] := by
  have hmap : order.map (fun i => PreloadEvent.fetchDone 1 i true) =
      (order.map (fun i => (i, true))).map
        (fun e => PreloadEvent.fetchDone 1 e.1 e.2) := by
    rw [List.map_map]
    exact List.map_congr_left fun a _ => rfl
  have hfst : (order.map (fun i => (i, true))).map (fun e => e.1) = order := by
    rw [List.map_map]
    exact (List.map_congr_left fun a _ => rfl).trans (List.map_id order)
  have hlt : ∀ e ∈ order.map (fun i => (i, true)), e.1 < c := by
    intro e he
    obtain ⟨i, hi, rfl⟩ := List.mem_map.mp he
    exact List.mem_range.mp (hperm.mem_iff.mp hi)
  have hnd : ((order.map (fun i => (i, true))).map (fun e => e.1)).Nodup := by
    rw [hfst]
    exact hperm.nodup_iff.mpr (List.nodup_range c)
  rw [hmap, runPreload_single b c p hc _ hlt hnd]
  have hok : okIdx (order.map (fun i => (i, true))) = order := by
    simp [okIdx, List.filter_map, List.map_map, Function.comp_def]
  have herr : errIdx (order.map (fun i => (i, true))) = [] := by
    simp [errIdx, List.filter_map, Function.comp_def]
  have hcomp : doneComplete c (order.map (fun i => (i, true))) = true := by
    rw [doneComplete, List.all_eq_true]
    intro j hj
    rw [hok]
    exact decide_eq_true (hperm.mem_iff.mpr hj)
  have hslots : doneSlots b c p (order.map (fun i => (i, true))) =
      (List.range c).map (fun i => some (Image.mk (frameSrc b p i))) := by
    rw [doneSlots]
    refine List.map_congr_left fun j hj => ?_
    rw [hok, if_pos (hperm.mem_iff.mpr hj)]
  simp [midState, doneResult, herr, hcomp, hslots]

/-- Witness for C7: two frames fetched in reversed completion order. -/
theorem preload_resolves_indexed_collection_witness :
    (1 ≤ 2 ∧ 1 ≤ 4 ∧ ([1, 0] : List ℕ).Perm (List.range 2)) ∧
    (runPreload (.call "f" 2 4 ::
        ([1, 0] : List ℕ).map (fun i => .fetchDone 1 i true))).loads.map
      (fun L => L.result) =
      [some (Except.ok ((List.range 2).map
        (fun i => some (Image.mk (frameSrc "f" 4 i)))))] :=
  ⟨⟨by norm_num, by norm_num, by decide⟩,
    preload_resolves_indexed_collection "f" 2 4 (by norm_num) (by norm_num)
      [1, 0] (by decide)⟩

lemma progressOf_mono {c : ℕ} {l1 l2 : ℕ} (h : l1 ≤ l2) :
    progressOf l1 c ≤ progressOf l2 c := by
  unfold progressOf
  apply Int.floor_le_floor
  have hq : (l1 : ℚ) ≤ (l2 : ℚ) := by exact_mod_cast h
  rcases Nat.eq_zero_or_pos c with rfl | hc
  · norm_num
  · have hc' : (0 : ℚ) < (c : ℚ) := by exact_mod_cast hc
    have := (div_le_div_iff_of_pos_right hc').mpr hq
    linarith

lemma progressOf_full {c : ℕ} (hc : 1 ≤ c) : progressOf c c = 100 := by
  unfold progressOf
  rw [div_self (by exact_mod_cast (by omega : c ≠ 0))]
  norm_num

/-- C8 amended: during a single load the published progress
percentage is monotonically non-decreasing over any prefix of the completion
sequence, and if the load succeeds (all `count` fetches resolve) the final
progress is exactly `100`.  (The converse fails: see the counterexample.) -/
theorem progress_monotone_and_full_on_success (b : String) (c p : ℕ)
    (hc : 1 ≤ c) (done : List (ℕ × Bool)) (hlt : ∀ e ∈ done, e.1 < c)
    (hnd : (done.map (fun e => e.1)).Nodup) :
    (∀ k1 k2 : ℕ, k1 ≤ k2 →
      (runPreload (.call b c p ::
        (done.take k1).map (fun e => .fetchDone 1 e.1 e.2))).pub.progress ≤
      (runPreload (.call b c p ::
        (done.take k2).map (fun e => .fetchDone 1 e.1 e.2))).pub.progress) ∧
    ((∀ e ∈ done, e.2 = true) → (done.map (fun e => e.1)).Perm (List.range c) →
      (runPreload (.call b c p ::
        done.map (fun e => .fetchDone 1 e.1 e.2))).pub.progress = 100) := by
  have hrunk : ∀ k, runPreload (.call b c p ::
      (done.take k).map (fun e => .fetchDone 1 e.1 e.2)) =
      midState b c p (done.take k) := by
    intro k
    refine runPreload_single b c p hc _
      (fun e he => hlt e (List.mem_of_mem_take he)) ?_
    rw [List.map_take]
    exact List.Nodup.sublist (List.take_sublist k _) hnd
  constructor
  · intro k1 k2 hk
    rw [hrunk k1, hrunk k2]
    simp only [midState]
    apply progressOf_mono
    have heq : done.take k1 = (done.take k2).take k1 := by
      rw [List.take_take, Nat.min_eq_left hk]
    have hsub : List.Sublist (done.take k1) (done.take k2) := by
      rw [heq]
      exact List.take_sublist _ _
    exact ((hsub.filter _).map _).length_le
  · intro hall hperm
    rw [runPreload_single b c p hc done hlt hnd]
    simp only [midState]
    have hokeq : okIdx done = done.map (fun e => e.1) := by
      unfold okIdx
      rw [List.filter_eq_self.mpr (fun e he => by rw [hall e he])]
    rw [hokeq, List.Perm.length_eq hperm, List.length_range]
    exact progressOf_full hc

/-- Witness for C8: a two-frame load completing fully. -/
theorem progress_monotone_and_full_on_success_witness :
    (1 ≤ 2 ∧ (∀ e ∈ [((0 : ℕ), true), (1, true)], e.1 < 2) ∧
      (([((0 : ℕ), true), (1, true)]).map (fun e => e.1)).Nodup) ∧
    ((∀ k1 k2 : ℕ, k1 ≤ k2 →
      (runPreload (.call "f" 2 4 ::
        ([((0 : ℕ), true), (1, true)].take k1).map
          (fun e => .fetchDone 1 e.1 e.2))).pub.progress ≤
      (runPreload (.call "f" 2 4 ::
        ([((0 : ℕ), true), (1, true)].take k2).map
          (fun e => .fetchDone 1 e.1 e.2))).pub.progress) ∧
    ((∀ e ∈ [((0 : ℕ), true), (1, true)], e.2 = true) →
      (([((0 : ℕ), true), (1, true)]).map (fun e => e.1)).Perm
        (List.range 2) →
      (runPreload (.call "f" 2 4 ::
        [((0 : ℕ), true), (1, true)].map
          (fun e => .fetchDone 1 e.1 e.2))).pub.progress = 100)) :=
  ⟨⟨by norm_num, by decide, by decide⟩,
    progress_monotone_and_full_on_success "f" 2 4 (by norm_num) _
      (by decide) (by decide)⟩

/-- C8 counterexample: with `count = 200`, if frames `0 … 198` load
successfully and frame `199` then fails, the published progress is
`round(199/200·100) = 100` although the load rejects — progress reaching
exactly `100` does not imply the load succeeded. -/
theorem progress_full_on_failed_load :
    (runPreload (.call "/frames/section-2" 200 4 ::
        ((List.range 199).map (fun i => ((i : ℕ), true)) ++
          ([((199 : ℕ), false)] : List (ℕ × Bool))).map (fun e => .fetchDone 1 e.1 e.2))).pub.progress
      = 100 ∧
    (runPreload (.call "/frames/section-2" 200 4 ::
        ((List.range 199).map (fun i => ((i : ℕ), true)) ++
          ([((199 : ℕ), false)] : List (ℕ × Bool))).map (fun e => .fetchDone 1 e.1 e.2))).loads.map
      (fun L => L.result) =
      [some (Except.error (failMsg (frameSrc "/frames/section-2" 4 199)))] := by
  have hfst : (((List.range 199).map (fun i => ((i : ℕ), true)) ++
      ([((199 : ℕ), false)] : List (ℕ × Bool))).map (fun e => e.1)) = List.range 200 := by
    rw [List.map_append, List.map_map]
    have h1 : (List.range 199).map
        ((fun e => e.1) ∘ (fun i => ((i : ℕ), true))) = List.range 199 :=
      (List.map_congr_left fun a _ => rfl).trans (List.map_id _)
    rw [h1, show List.map (fun e : ℕ × Bool => e.1)
      ([((199 : ℕ), false)] : List (ℕ × Bool)) = [199] from rfl,
      ← List.range_succ]
  have hlt : ∀ e ∈ ((List.range 199).map (fun i => ((i : ℕ), true)) ++
      ([((199 : ℕ), false)] : List (ℕ × Bool))), e.1 < 200 := by
    intro e he
    have hmem : e.1 ∈ List.range 200 :=
      hfst ▸ List.mem_map_of_mem (fun e => e.1) he
    exact List.mem_range.mp hmem
  have hnd : ((((List.range 199).map (fun i => ((i : ℕ), true)) ++
      ([((199 : ℕ), false)] : List (ℕ × Bool)))).map (fun e => e.1)).Nodup := by
    rw [hfst]
    exact List.nodup_range 200
  rw [runPreload_single _ 200 4 (by norm_num) _ hlt hnd]
  have hok : okIdx ((List.range 199).map (fun i => ((i : ℕ), true)) ++
      ([((199 : ℕ), false)] : List (ℕ × Bool))) = List.range 199 := by
    rw [okIdx_append]
    have h1 : okIdx ((List.range 199).map (fun i => ((i : ℕ), true))) =
        List.range 199 := by
      simp [okIdx, List.filter_map, List.map_map, Function.comp_def]
    have h2 : okIdx ([((199 : ℕ), false)] : List (ℕ × Bool)) = [] := rfl
    rw [h1, h2, List.append_nil]
  have herr : errIdx ((List.range 199).map (fun i => ((i : ℕ), true)) ++
      ([((199 : ℕ), false)] : List (ℕ × Bool))) = [199] := by
    rw [errIdx_append]
    have h1 : errIdx ((List.range 199).map (fun i => ((i : ℕ), true))) = [] := by
      simp [errIdx, List.filter_map, Function.comp_def]
    rw [h1]
    rfl
  constructor
  · simp only [midState]
    rw [hok, List.length_range]
    norm_num [progressOf]
  · simp [midState, doneResult, herr]

/-- C9: if a fetch fails during a call, the call is already rejected at
the moment that fetch fails (fail-fast), with an error carrying the failed
resource's address; the rejection persists through any later completions,
and the partial collection is never published: images stay `[]` and the
ready flag stays `false`, the values set at the start of the call. -/
theorem failed_fetch_rejects_without_publishing (b : String) (c p : ℕ)
    (hc : 1 ≤ c) (pre post : List (ℕ × Bool)) (j : ℕ)
    (hpre : ∀ e ∈ pre, e.2 = true)
    (hlt : ∀ e ∈ pre ++ (j, false) :: post, e.1 < c)
    (hnd : ((pre ++ (j, false) :: post).map (fun e => e.1)).Nodup) :
    ((runPreload (.call b c p ::
        (pre ++ [(j, false)]).map (fun e => .fetchDone 1 e.1 e.2))).loads.map
      (fun L => L.result) =
      [some (Except.error (failMsg (frameSrc b p j)))]) ∧
    ((runPreload (.call b c p ::
        (pre ++ (j, false) :: post).map
          (fun e => .fetchDone 1 e.1 e.2))).loads.map (fun L => L.result) =
      [some (Except.error (failMsg (frameSrc b p j)))]) ∧
    (runPreload (.call b c p ::
        (pre ++ (j, false) :: post).map
          (fun e => .fetchDone 1 e.1 e.2))).pub.images = [] ∧
    (runPreload (.call b c p ::
        (pre ++ (j, false) :: post).map
          (fun e => .fetchDone 1 e.1 e.2))).pub.isLoaded = false := by
  have herrpre : errIdx pre = [] := by
    have hfil : pre.filter (fun e => !e.2) = [] :=
      List.filter_eq_nil.mpr (fun e he => by rw [hpre e he]; simp)
    rw [errIdx, hfil]
    rfl
  have hsub : List.Sublist (pre ++ [(j, false)]) (pre ++ (j, false) :: post) :=
    List.Sublist.append_left
      (List.cons_sublist_cons.mpr (List.nil_sublist post)) pre
  have hlt1 : ∀ e ∈ pre ++ [(j, false)], e.1 < c :=
    fun e he => hlt e (hsub.mem he)
  have hnd1 : ((pre ++ [(j, false)]).map (fun e => e.1)).Nodup :=
    List.Nodup.sublist (hsub.map _) hnd
  have herr1 : errIdx (pre ++ [(j, false)]) = [j] := by
    rw [errIdx_append, herrpre]
    rfl
  have herr2 : errIdx (pre ++ (j, false) :: post) = j :: errIdx post := by
    rw [errIdx_append, herrpre, List.nil_append]
    simp [errIdx, List.filter_cons]
  refine ⟨?_, ?_, ?_, ?_⟩
  · rw [runPreload_single b c p hc _ hlt1 hnd1]
    simp [midState, doneResult, herr1]
  · rw [runPreload_single b c p hc _ hlt hnd]
    simp [midState, doneResult, herr2]
  · rw [runPreload_single b c p hc _ hlt hnd]
    simp [midState, herr2]
  · rw [runPreload_single b c p hc _ hlt hnd]
    simp [midState, herr2]

/-- Witness for C9: a three-frame load where frame `1` fails between two
successes. -/
theorem failed_fetch_rejects_without_publishing_witness :
    (1 ≤ 3 ∧ (∀ e ∈ ([((0 : ℕ), true)] : List (ℕ × Bool)), e.2 = true) ∧
      (∀ e ∈ ([((0 : ℕ), true)] : List (ℕ × Bool)) ++ ((1 : ℕ), false) :: ([((2 : ℕ), true)] : List (ℕ × Bool)), e.1 < 3) ∧
      ((([((0 : ℕ), true)] : List (ℕ × Bool)) ++ ((1 : ℕ), false) :: ([((2 : ℕ), true)] : List (ℕ × Bool))).map
        (fun e => e.1)).Nodup) ∧
    (((runPreload (.call "f" 3 4 ::
        (([((0 : ℕ), true)] : List (ℕ × Bool)) ++ ([((1 : ℕ), false)] : List (ℕ × Bool))).map
          (fun e => .fetchDone 1 e.1 e.2))).loads.map (fun L => L.result) =
      [some (Except.error (failMsg (frameSrc "f" 4 1)))]) ∧
    ((runPreload (.call "f" 3 4 ::
        (([((0 : ℕ), true)] : List (ℕ × Bool)) ++ ((1 : ℕ), false) :: ([((2 : ℕ), true)] : List (ℕ × Bool))).map
          (fun e => .fetchDone 1 e.1 e.2))).loads.map (fun L => L.result) =
      [some (Except.error (failMsg (frameSrc "f" 4 1)))]) ∧
    (runPreload (.call "f" 3 4 ::
        (([((0 : ℕ), true)] : List (ℕ × Bool)) ++ ((1 : ℕ), false) :: ([((2 : ℕ), true)] : List (ℕ × Bool))).map
          (fun e => .fetchDone 1 e.1 e.2))).pub.images = [] ∧
    (runPreload (.call "f" 3 4 ::
        (([((0 : ℕ), true)] : List (ℕ × Bool)) ++ ((1 : ℕ), false) :: ([((2 : ℕ), true)] : List (ℕ × Bool))).map
          (fun e => .fetchDone 1 e.1 e.2))).pub.isLoaded = false) :=
  ⟨⟨by norm_num, by decide, by decide, by decide⟩,
    failed_fetch_rejects_without_publishing "f" 3 4 (by norm_num)
      ([((0 : ℕ), true)] : List (ℕ × Bool))
      ([((2 : ℕ), true)] : List (ℕ × Bool)) 1 (by decide) (by decide)
      (by decide)⟩

end WideLanding
